import Mathlib

/-!
Verification of the Metal GPU concatenation kernel-source generator
(`tensorflow/lite/delegates/gpu/metal/kernels/concat.cc`).

The C++ code builds shader source text by successive string appends
(`c += "..."`).  We embed each generator as a function producing the
`List String` of appended pieces, in order; the generated source text is
the concatenation of that list.  Shapes and sizes are modelled as `Nat`
(the C++ uses non-negative `int` shape extents), and every place where
the C++ indexes `v[0]` into a possibly-empty vector is modelled with
`Option` so that the out-of-bounds case is explicit.
-/

/-- Modelled from the spec: `DivideRoundUp` lives in
`tensorflow/lite/delegates/gpu/common/util.h`, which is not part of the
sources here.  The spec (§4.1) states it returns `ceil(a / b)` using only
integer arithmetic for non-negative `a` and positive `b`. -/
def DivideRoundUp (n d : Nat) : Nat := (n + d - 1) / d

/-- Shape of one tensor: batch, height, width, channels (`BHWC` in the
C++ common library; the struct itself is outside these sources, its four
extent fields are as the spec (§3) describes). -/
structure BHWC where
  b : Nat
  h : Nat
  w : Nat
  c : Nat
deriving DecidableEq, Repr

/-- Opaque stand-in for the C++ `TensorDescriptor` carried by an
`OperationDef` binding; its contents never matter here. -/
abbrev TensorDesc := Nat

/-- Modelled from the spec: `OperationDef` (outside these sources)
declares the ordered source-tensor bindings and the destination
bindings (§3, §6). -/
structure OperationDef where
  src_tensors : List TensorDesc
  dst_tensors : List TensorDesc
deriving DecidableEq, Repr

/-- Modelled from the spec: the concatenation axis enum (§3).  The real
enum (`common/shape.h`, outside these sources) has further members;
`batch` and `unknown` stand for values other than the three the
dispatcher tests for. -/
inductive Axis where
  | channels
  | width
  | height
  | batch
  | unknown
deriving DecidableEq, Repr

/-- `ConcatAttributes` carries the concatenation axis (spec §3). -/
structure ConcatAttributes where
  axis : Axis
deriving DecidableEq, Repr

/-- Modelled from the spec: `GetByteBuffer` (outside these sources)
serializes a vector of 32-bit integers as a flat little-endian sequence
of 4-byte values (§6).  Bytes are `Nat`s below 256. -/
def GetByteBuffer (params : List Nat) : List Nat :=
  params.flatMap (fun v =>
    [v % 256, v / 256 % 256, v / 65536 % 256, v / 16777216 % 256])

/-- The dispatch-ready artifact built by each generator, mirroring the
fields of the C++ `ComputeTaskDescriptor` that this file uses: the
shader source (as the list of appended pieces), the named source and
destination tensor bindings in registration order, the named
uniform-buffer builder, and the resize function.  The builder returns
the serialized bytes and the resize function returns the pair
(work-group size, group counts); both are `Option`-valued because the
C++ lambdas index `shapes[0]`. -/
structure ComputeTaskDescriptor where
  definition : OperationDef
  shader_source : List String
  src_tensors : List (String × Option TensorDesc)
  dst_tensors : List (String × Option TensorDesc)
  uniform_buffers : List (String × (List BHWC → List BHWC → Option (List Nat)))
  resize_function : List BHWC → List BHWC → Option ((Nat × Nat × Nat) × (Nat × Nat × Nat))

/-- `IsAllChannelsX4` (concat.cc:36-43): true iff every per-input
channel count is a multiple of 4. -/
def IsAllChannelsX4 (channels : List Nat) : Bool :=
  channels.all (fun c => c % 4 == 0)

/-- The `postfix[]` lane-selector array of `GetConcatZCode`
(concat.cc:46); indices used by the code are always below 4. -/
def laneSuffix : Nat → String
  | 0 => ".x"
  | 1 => ".y"
  | 2 => ".z"
  | _ => ".w"

/-- The fixed preamble of the depth-axis kernel (concat.cc:47-67). -/
def zPreamble : String :=
  "\n    #include <metal_stdlib>\n    using namespace metal;\n    struct uniforms \x7b\n      int4 src_size;\n      int4 dst_size;\n    \x7d;\n\n    $0\n    kernel void ComputeFunction(\n                                $1\n                                uint2 ugid[[thread_position_in_grid]]) \x7b\n  int X = static_cast<int>(ugid.x);\n  int Y = static_cast<int>(ugid.y);\n  int Z = 0;\n  if (X >= U.dst_size.x || Y >= U.dst_size.y) return;\n\n  FLT4 value = FLT4(0.0f);\n  const int xy_offset = Y * U.src_size.x + X;\n  int linear_index = xy_offset;\n"

/-- The destination-store line shared by the aligned loop body and every
flush block (concat.cc:81, 109, 123). -/
def flushLine : String := "    dst_tensor[linear_index] = value;\n"

/-- The `gid` set-up line of the write blocks (concat.cc:79, 107, 121). -/
def gidLine : String := "    uint3 gid = uint3(ugid.x, ugid.y, uint(Z));\n"

/-- The in-loop flush block of the unaligned depth path
(concat.cc:106-112): store the assembled vector and advance. -/
def flushBlock : List String :=
  ["  \x7b\n", gidLine, "    $2\n", flushLine,
   "    linear_index += U.src_size.w;\n", "    Z++;\n", "  \x7d\n"]

/-- The trailing flush block of the unaligned depth path
(concat.cc:119-125): emitted once at the end when a partial output
vector remains; it does not advance `linear_index`. -/
def trailingFlushBlock : List String :=
  ["  \x7b\n", gidLine, "    $2\n", flushLine, "  \x7d\n"]

/-- One per-input loop of the aligned depth path (concat.cc:73-85),
for input index `i` with channel count `c`. -/
def alignedBlock (i c : Nat) : List String :=
  ["  for (int i = 0; i < " ++ toString (DivideRoundUp c 4) ++ "; ++i) \x7b\n",
   "    int src_index = i * U.src_size.w + xy_offset;\n",
   "    value = src_tensor" ++ toString i ++ "[src_index];\n",
   gidLine,
   "    $2\n",
   flushLine,
   "    linear_index += U.src_size.w;\n",
   "    Z++;\n",
   "  \x7d\n"]

/-- The aligned code path of `GetConcatZCode` (concat.cc:69-85): one
loop per input, in input order. -/
def alignedBody (channels : List Nat) : List String :=
  channels.enum.flatMap (fun p => alignedBlock p.1 p.2)

/-- The innermost `ch` loop of the unaligned depth path
(concat.cc:100-115): copy each valid lane of the temporary `temp` into
the accumulating output vector, flushing whenever `out_channel` wraps to
4.  `chs` is the list of remaining lane indices and `oc` the running
`out_channel`; returns the emitted pieces and the final `out_channel`. -/
def laneFold (temp : String) : List Nat → Nat → List String × Nat
  | [], oc => ([], oc)
  | ch :: rest, oc =>
    let pieces := ["  value" ++ laneSuffix oc ++ " = ",
                   temp ++ laneSuffix ch ++ ";\n"]
    if oc + 1 == 4 then
      let r := laneFold temp rest 0
      (pieces ++ flushBlock ++ r.1, r.2)
    else
      let r := laneFold temp rest (oc + 1)
      (pieces ++ r.1, r.2)

/-- The `d` loop of the unaligned depth path (concat.cc:93-117) for
input `i` with channel count `c`: read one temporary per depth subgroup
and hand its valid lanes to `laneFold`.  `ds` is the list of remaining
depth indices, `ri` the running `read_index`, `oc` the running
`out_channel`; returns the pieces, final `read_index`, and final
`out_channel`. -/
def depthFold (i c : Nat) : List Nat → Nat → Nat → List String × Nat × Nat
  | [], ri, oc => ([], ri, oc)
  | d :: rest, ri, oc =>
    let temp := "t" ++ toString ri
    let readPiece := "  FLT4 " ++ temp ++ " = src_tensor" ++ toString i ++
      "[" ++ toString d ++ " * U.src_size.w + xy_offset];\n"
    let lanes := laneFold temp (List.range (min 4 (c - 4 * d))) oc
    let r := depthFold i c rest (ri + 1) lanes.2
    (readPiece :: lanes.1 ++ r.1, r.2)

/-- The outer input loop of the unaligned depth path (concat.cc:90-118),
over `(index, channel count)` pairs, threading `read_index` and
`out_channel`; returns the pieces and the final `out_channel`. -/
def inputsFold : List (Nat × Nat) → Nat → Nat → List String × Nat
  | [], _, oc => ([], oc)
  | (i, c) :: rest, ri, oc =>
    let r1 := depthFold i c (List.range (DivideRoundUp c 4)) ri oc
    let r2 := inputsFold rest r1.2.1 r1.2.2
    (r1.1 ++ r2.1, r2.2)

/-- The unaligned code path of `GetConcatZCode` (concat.cc:86-126),
including the trailing flush when `out_channel` is nonzero at the end
(concat.cc:119-125). -/
def unalignedBody (channels : List Nat) : List String :=
  let r := inputsFold channels.enum 0 0
  r.1 ++ (if r.2 != 0 then trailingFlushBlock else [])

/-- `GetConcatZCode` (concat.cc:45-129): preamble, then the aligned or
unaligned body depending on `IsAllChannelsX4`, then the closing brace. -/
def GetConcatZCode (channels : List Nat) : List String :=
  [zPreamble] ++
  (if IsAllChannelsX4 channels then alignedBody channels
   else unalignedBody channels) ++
  ["\x7d\n"]

/-- The integer list packed by the depth-axis uniform-buffer lambda
(concat.cc:151-162); `none` when either shape list is empty (the C++
indexes `shapes[0]`). -/
def concatZUniformParams (src_shapes dst_shapes : List BHWC) : Option (List Nat) :=
  match src_shapes, dst_shapes with
  | s0 :: _, d0 :: _ =>
    some [s0.w, s0.h, DivideRoundUp s0.c 4, s0.w * s0.h,
          d0.w, d0.h, DivideRoundUp d0.c 4, d0.w * d0.h]
  | _, _ => none

/-- The depth-axis uniform-buffer builder (concat.cc:149-165): the
packed integers serialized to bytes. -/
def concatZUniform (src_shapes dst_shapes : List BHWC) : Option (List Nat) :=
  (concatZUniformParams src_shapes dst_shapes).map GetByteBuffer

/-- The depth-axis resize function (concat.cc:167-176): grid is
destination (w, h, 1), work-group size (8, 4, 1), groups the ceiling
division of the two. -/
def concatZResize (src_shapes dst_shapes : List BHWC) :
    Option ((Nat × Nat × Nat) × (Nat × Nat × Nat)) :=
  match dst_shapes with
  | d0 :: _ =>
    some ((8, 4, 1),
          (DivideRoundUp d0.w 8, DivideRoundUp d0.h 4, DivideRoundUp 1 1))
  | _ => none

/-- `ConcatZ` (concat.cc:132-179): the depth-axis task descriptor. -/
def ConcatZ (definition : OperationDef) (attr : ConcatAttributes)
    (input_shapes : List BHWC) : ComputeTaskDescriptor :=
  let channels := input_shapes.map (fun s => s.c)
  { definition := definition
    shader_source := GetConcatZCode channels
    src_tensors := definition.src_tensors.enum.map
      (fun p => ("src_tensor" ++ toString p.1, some p.2))
    dst_tensors := [("dst_tensor", definition.dst_tensors.get? 0)]
    uniform_buffers := [("constant uniforms& U", concatZUniform)]
    resize_function := concatZResize }

/-- The fixed preamble of the width-axis kernel (concat.cc:185-196). -/
def xPreamble : String :=
  "\n    #include <metal_stdlib>\n    using namespace metal;\n    $0\n    kernel void ComputeFunction(\n                                $1\n                                uint3 gid[[thread_position_in_grid]]) \x7b\n      if (int(gid.x) >= size.x || int(gid.y) >= size.y) \x7b\n        return;\n      \x7d\n      FLT4 value;\n    "

/-- The fixed tail of the width-axis kernel (concat.cc:220-224). -/
def xTail : String :=
  "\n      $2\n      dst_tensor[linear_index] = value;\n    \x7d\n  "

/-- The branch-chain loop of `ConcatX` (concat.cc:197-216): for each
input (index `k`, running cumulative width `ow`) emit the conditional
guard (except for the last input), the source read, and the `else`
(except for the last input); returns the pieces and the final
cumulative `output_width`. -/
def concatXLoop : Nat → Nat → List BHWC → List String × Nat
  | _, ow, [] => ([], ow)
  | k, ow, dims :: rest =>
    let ow2 := ow + dims.w
    let pieces :=
      (if rest.isEmpty then [] else ["if (gid.x < " ++ toString ow2 ++ ")"]) ++
      ["value = src_tensor" ++ toString k ++ "[(gid.y + gid.z * " ++
        toString dims.h ++ ") * " ++ toString dims.w ++ " + gid.x - " ++
        toString (ow2 - dims.w) ++ "];\n"] ++
      (if rest.isEmpty then [] else ["else "])
    let r := concatXLoop (k + 1) ow2 rest
    (pieces ++ r.1, r.2)

/-- The width-axis shader source (concat.cc:185-225): `none` on an empty
input list because the C++ reads `input_shapes[0].h` for the destination
flat-index line (concat.cc:217-219). -/
def ConcatXCode (input_shapes : List BHWC) : Option (List String) :=
  match input_shapes with
  | [] => none
  | s0 :: _ =>
    let r := concatXLoop 0 0 input_shapes
    some ([xPreamble] ++ r.1 ++
      ["const int linear_index = (gid.y + gid.z * " ++ toString s0.h ++
        ") * " ++ toString r.2 ++ " + gid.x;"] ++
      [xTail])

/-- The integer list packed by the width-axis uniform-buffer lambda
(concat.cc:233-242): destination width, height, channel vector-group
depth, and a zero padding field. -/
def concatXUniformParams (src_shapes dst_shapes : List BHWC) : Option (List Nat) :=
  match dst_shapes with
  | d0 :: _ => some [d0.w, d0.h, DivideRoundUp d0.c 4, 0]
  | _ => none

/-- The width-axis uniform-buffer builder (concat.cc:233-242). -/
def concatXUniform (src_shapes dst_shapes : List BHWC) : Option (List Nat) :=
  (concatXUniformParams src_shapes dst_shapes).map GetByteBuffer

/-- The width-axis resize function (concat.cc:244-251). -/
def concatXResize (src_shapes dst_shapes : List BHWC) :
    Option ((Nat × Nat × Nat) × (Nat × Nat × Nat)) :=
  match dst_shapes with
  | d0 :: _ =>
    some ((8, 4, 1),
          (DivideRoundUp d0.w 8, DivideRoundUp d0.h 4, DivideRoundUp d0.c 4))
  | _ => none

/-- `ConcatX` (concat.cc:181-254): the width-axis task descriptor;
`none` exactly when the shader source generation reads past an empty
shape list. -/
def ConcatX (definition : OperationDef) (attr : ConcatAttributes)
    (input_shapes : List BHWC) : Option ComputeTaskDescriptor :=
  (ConcatXCode input_shapes).map (fun code =>
    { definition := definition
      shader_source := code
      src_tensors := (List.range input_shapes.length).map
        (fun i => ("src_tensor" ++ toString i, definition.src_tensors.get? i))
      dst_tensors := [("dst_tensor", definition.dst_tensors.get? 0)]
      uniform_buffers := [("constant int3& size", concatXUniform)]
      resize_function := concatXResize })

/-- The fixed preamble of the height-axis kernel (concat.cc:260-271). -/
def yPreamble : String :=
  "\n    #include <metal_stdlib>\n    using namespace metal;\n    $0\n    kernel void ComputeFunction(\n                                $1\n                                uint3 gid[[thread_position_in_grid]]) \x7b\n      if (int(gid.x) >= size.x || int(gid.y) >= size.y) \x7b\n        return;\n      \x7d\n      FLT4 value;\n  "

/-- The fixed tail of the height-axis kernel (concat.cc:296-300). -/
def yTail : String :=
  "\n      $2\n      dst_tensor[linear_index] = value;\n    \x7d\n  "

/-- The branch-chain loop of `ConcatY` (concat.cc:272-291), symmetric to
`concatXLoop` with height in place of width; the source read subtracts
the height offset from `gid.y`. -/
def concatYLoop : Nat → Nat → List BHWC → List String × Nat
  | _, oh, [] => ([], oh)
  | k, oh, dims :: rest =>
    let oh2 := oh + dims.h
    let pieces :=
      (if rest.isEmpty then [] else ["if (gid.y < " ++ toString oh2 ++ ")"]) ++
      ["value = src_tensor" ++ toString k ++ "[(gid.y - " ++
        toString (oh2 - dims.h) ++ " + gid.z * " ++ toString dims.h ++
        ") * " ++ toString dims.w ++ " + gid.x];\n"] ++
      (if rest.isEmpty then [] else ["else "])
    let r := concatYLoop (k + 1) oh2 rest
    (pieces ++ r.1, r.2)

/-- The height-axis shader source (concat.cc:260-301): `none` on an
empty input list because the C++ reads `input_shapes[0].w` for the
destination flat-index line (concat.cc:292-295). -/
def ConcatYCode (input_shapes : List BHWC) : Option (List String) :=
  match input_shapes with
  | [] => none
  | s0 :: _ =>
    let r := concatYLoop 0 0 input_shapes
    some ([yPreamble] ++ r.1 ++
      ["const int linear_index = (gid.y + gid.z * " ++ toString r.2 ++
        ") * " ++ toString s0.w ++ " + gid.x;"] ++
      [yTail])

/-- The integer list packed by the height-axis uniform-buffer lambda
(concat.cc:309-318), identical in content to the width-axis one. -/
def concatYUniformParams (src_shapes dst_shapes : List BHWC) : Option (List Nat) :=
  match dst_shapes with
  | d0 :: _ => some [d0.w, d0.h, DivideRoundUp d0.c 4, 0]
  | _ => none

/-- The height-axis uniform-buffer builder (concat.cc:309-318). -/
def concatYUniform (src_shapes dst_shapes : List BHWC) : Option (List Nat) :=
  (concatYUniformParams src_shapes dst_shapes).map GetByteBuffer

/-- The height-axis resize function (concat.cc:320-327). -/
def concatYResize (src_shapes dst_shapes : List BHWC) :
    Option ((Nat × Nat × Nat) × (Nat × Nat × Nat)) :=
  match dst_shapes with
  | d0 :: _ =>
    some ((8, 4, 1),
          (DivideRoundUp d0.w 8, DivideRoundUp d0.h 4, DivideRoundUp d0.c 4))
  | _ => none

/-- `ConcatY` (concat.cc:256-330): the height-axis task descriptor. -/
def ConcatY (definition : OperationDef) (attr : ConcatAttributes)
    (input_shapes : List BHWC) : Option ComputeTaskDescriptor :=
  (ConcatYCode input_shapes).map (fun code =>
    { definition := definition
      shader_source := code
      src_tensors := (List.range input_shapes.length).map
        (fun i => ("src_tensor" ++ toString i, definition.src_tensors.get? i))
      dst_tensors := [("dst_tensor", definition.dst_tensors.get? 0)]
      uniform_buffers := [("constant int3& size", concatYUniform)]
      resize_function := concatYResize })

/-- `Concat` (concat.cc:332-342): the axis dispatcher. -/
def Concat (definition : OperationDef) (attr : ConcatAttributes)
    (input_shapes : List BHWC) : Option ComputeTaskDescriptor :=
  if attr.axis = Axis.channels then some (ConcatZ definition attr input_shapes)
  else if attr.axis = Axis.width then ConcatX definition attr input_shapes
  else ConcatY definition attr input_shapes

/-- The character-list pattern of a subscripted reference to the source
tensor whose decimal index reads `Y`: `src_tensor<Y>[`. -/
def srcRefPat (Y : List Char) : List Char :=
  "src_tensor".toList ++ Y ++ ['[']

/-- Boolean check that the pattern `p` occurs as a contiguous substring
of one of the emitted pieces. -/
def chunksHavePat (chunks : List String) (p : List Char) : Bool :=
  chunks.any (fun s => s.toList.tails.any (fun t => List.isPrefixOf p t))

/-- Soundness bound for source-tensor references in one emitted piece:
every occurrence of `src_tensor<Y>[` with a decimal digit string `Y`
names an input index below `N`. -/
def RefBound (N : Nat) (s : String) : Prop :=
  ∀ Y : List Char, (∀ c ∈ Y, c.isDigit) → srcRefPat Y <:+: s.toList →
    ∃ i, i < N ∧ Y = (toString i).toList

/-- Cumulative width of the first `k` input shapes, following the spec's
words for the width generator's running offset (§4.4). -/
def cumulativeWidth (shapes : List BHWC) (k : Nat) : Nat :=
  ((shapes.take k).map (fun s => s.w)).sum

/-- The branch chain of the width generator as the spec (§4.4) words it:
for each input except the last, a conditional on the cumulative width so
far, the source read subtracting the offset before this input, and an
`else`; the last input has no guard and no `else`. -/
def concatXBranchesSpec (shapes : List BHWC) : List String :=
  (List.range shapes.length).flatMap (fun k =>
    (if k + 1 < shapes.length then
       ["if (gid.x < " ++ toString (cumulativeWidth shapes (k + 1)) ++ ")"]
     else []) ++
    (match shapes.get? k with
     | some dims =>
       ["value = src_tensor" ++ toString k ++ "[(gid.y + gid.z * " ++
         toString dims.h ++ ") * " ++ toString dims.w ++ " + gid.x - " ++
         toString (cumulativeWidth shapes k) ++ "];\n"]
     | none => []) ++
    (if k + 1 < shapes.length then ["else "] else []))

/-- One-pass adjacency scan over a character list: true when no `[` is
immediately preceded by `r` or by a decimal digit.  Any occurrence of a
subscripted reference `src_tensor<digits>[` ends in such a pair, so a
clean scan rules every such reference out. -/
def cleanBrackets : List Char → Bool
  | x :: y :: rest => !(y == '[' && (x == 'r' || x.isDigit)) && cleanBrackets (y :: rest)
  | _ => true

/-! ### General helpers -/

theorem toList_append (s t : String) : (s ++ t).toList = s.toList ++ t.toList :=
  String.data_append s t

theorem string_ne_of_take_ne {s t : String} {k : Nat}
    (h : s.toList.take k ≠ t.toList.take k) : s ≠ t := by
  intro he
  exact h (by rw [he])

theorem chunksHavePat_iff (chunks : List String) (p : List Char) :
    chunksHavePat chunks p = true ↔ ∃ s ∈ chunks, p <:+: s.toList := by
  unfold chunksHavePat
  simp only [List.any_eq_true]
  constructor
  · rintro ⟨s, hs, t, ht, hp⟩
    rw [List.mem_tails] at ht
    exact ⟨s, hs, List.infix_iff_prefix_suffix.mpr ⟨t, List.isPrefixOf_iff_prefix.mp hp, ht⟩⟩
  · rintro ⟨s, hs, h⟩
    obtain ⟨t, hp, ht⟩ := List.infix_iff_prefix_suffix.mp h
    exact ⟨s, hs, t, (List.mem_tails _ _).mpr ht, List.isPrefixOf_iff_prefix.mpr hp⟩

/-! ### Claim C1 -/

/-- Claim C1: `IsAllChannelsX4` returns true iff every channel count is
divisible by 4, and `GetConcatZCode` selects the aligned (looped) body
exactly in that case, the unaligned (lane-assembly) body otherwise. -/
theorem isAllChannelsX4_selects_path (channels : List Nat) :
    (IsAllChannelsX4 channels = true ↔ ∀ c ∈ channels, c % 4 = 0) ∧
    GetConcatZCode channels =
      [zPreamble] ++
      (if ∀ c ∈ channels, c % 4 = 0 then alignedBody channels
       else unalignedBody channels) ++
      ["\x7d\n"] := by
  have hiff : IsAllChannelsX4 channels = true ↔ ∀ c ∈ channels, c % 4 = 0 := by
    simp [IsAllChannelsX4, List.all_eq_true]
  refine ⟨hiff, ?_⟩
  by_cases hp : ∀ c ∈ channels, c % 4 = 0
  · rw [GetConcatZCode, hiff.mpr hp, if_pos hp]
    rfl
  · have hf : IsAllChannelsX4 channels = false := by
      rcases Bool.eq_false_or_eq_true (IsAllChannelsX4 channels) with h | h
      · exact absurd (hiff.mp h) hp
      · exact h
    rw [GetConcatZCode, hf, if_neg hp]
    rfl

/-- Closed instance of `isAllChannelsX4_selects_path`. -/
theorem isAllChannelsX4_selects_path_witness :
    (IsAllChannelsX4 [4, 8] = true ↔ ∀ c ∈ [4, 8], c % 4 = 0) ∧
    GetConcatZCode [4, 8] =
      [zPreamble] ++
      (if ∀ c ∈ [4, 8], c % 4 = 0 then alignedBody [4, 8]
       else unalignedBody [4, 8]) ++
      ["\x7d\n"] :=
  isAllChannelsX4_selects_path [4, 8]

/-! ### Claim C5 -/

/-- Claim C5: the axis dispatcher returns the depth generator's
descriptor for `CHANNELS`, the width generator's for `WIDTH`, and the
height generator's for every other axis value, with no other
validation. -/
theorem concat_dispatches_on_axis (d : OperationDef) (s : List BHWC) :
    Concat d ⟨Axis.channels⟩ s = some (ConcatZ d ⟨Axis.channels⟩ s) ∧
    Concat d ⟨Axis.width⟩ s = ConcatX d ⟨Axis.width⟩ s ∧
    Concat d ⟨Axis.height⟩ s = ConcatY d ⟨Axis.height⟩ s ∧
    Concat d ⟨Axis.batch⟩ s = ConcatY d ⟨Axis.batch⟩ s ∧
    Concat d ⟨Axis.unknown⟩ s = ConcatY d ⟨Axis.unknown⟩ s :=
  ⟨rfl, rfl, rfl, rfl, rfl⟩

/-- Closed instance of `concat_dispatches_on_axis`. -/
theorem concat_dispatches_on_axis_witness :
    Concat ⟨[0], [1]⟩ ⟨Axis.channels⟩ [⟨1, 2, 3, 4⟩] =
      some (ConcatZ ⟨[0], [1]⟩ ⟨Axis.channels⟩ [⟨1, 2, 3, 4⟩]) ∧
    Concat ⟨[0], [1]⟩ ⟨Axis.width⟩ [⟨1, 2, 3, 4⟩] =
      ConcatX ⟨[0], [1]⟩ ⟨Axis.width⟩ [⟨1, 2, 3, 4⟩] ∧
    Concat ⟨[0], [1]⟩ ⟨Axis.height⟩ [⟨1, 2, 3, 4⟩] =
      ConcatY ⟨[0], [1]⟩ ⟨Axis.height⟩ [⟨1, 2, 3, 4⟩] ∧
    Concat ⟨[0], [1]⟩ ⟨Axis.batch⟩ [⟨1, 2, 3, 4⟩] =
      ConcatY ⟨[0], [1]⟩ ⟨Axis.batch⟩ [⟨1, 2, 3, 4⟩] ∧
    Concat ⟨[0], [1]⟩ ⟨Axis.unknown⟩ [⟨1, 2, 3, 4⟩] =
      ConcatY ⟨[0], [1]⟩ ⟨Axis.unknown⟩ [⟨1, 2, 3, 4⟩] :=
  concat_dispatches_on_axis ⟨[0], [1]⟩ [⟨1, 2, 3, 4⟩]

/-! ### Claim C6 -/

/-- Claim C6: the depth-axis uniform builder packs exactly these 8
4-byte integers, in order: first source w, h, ceil(c/4), w*h, then the
same four for the destination; serialized they are 32 bytes. -/
theorem concatZ_uniform_eight_ints (s0 d0 : BHWC) (srest drest : List BHWC) :
    concatZUniform (s0 :: srest) (d0 :: drest) =
      some (GetByteBuffer
        [s0.w, s0.h, DivideRoundUp s0.c 4, s0.w * s0.h,
         d0.w, d0.h, DivideRoundUp d0.c 4, d0.w * d0.h]) ∧
    (GetByteBuffer
        [s0.w, s0.h, DivideRoundUp s0.c 4, s0.w * s0.h,
         d0.w, d0.h, DivideRoundUp d0.c 4, d0.w * d0.h]).length = 32 := by
  refine ⟨rfl, ?_⟩
  simp [GetByteBuffer]

/-- Closed instance of `concatZ_uniform_eight_ints`. -/
theorem concatZ_uniform_eight_ints_witness :
    concatZUniform [⟨1, 7, 5, 6⟩] [⟨1, 7, 5, 11⟩, ⟨9, 9, 9, 9⟩] =
      some (GetByteBuffer
        [5, 7, DivideRoundUp 6 4, 5 * 7, 5, 7, DivideRoundUp 11 4, 5 * 7]) ∧
    (GetByteBuffer
        [5, 7, DivideRoundUp 6 4, 5 * 7, 5, 7, DivideRoundUp 11 4, 5 * 7]).length = 32 :=
  concatZ_uniform_eight_ints ⟨1, 7, 5, 6⟩ ⟨1, 7, 5, 11⟩ [] [⟨9, 9, 9, 9⟩]

/-! ### Claim C7 -/

/-- Claim C7: the depth-axis resize function always returns work-group
size (8,4,1) and groups (ceil(w/8), ceil(h/4), 1) of the first
destination shape — the z group count is 1 whatever the channel count —
and for destination (w=17, h=9) the groups are (3,3,1). -/
theorem concatZ_resize_dispatch (src : List BHWC) (d0 : BHWC) (drest : List BHWC) :
    concatZResize src (d0 :: drest) =
      some ((8, 4, 1), (DivideRoundUp d0.w 8, DivideRoundUp d0.h 4, 1)) ∧
    concatZResize [] [⟨1, 9, 17, 100⟩] = some ((8, 4, 1), (3, 3, 1)) :=
  ⟨rfl, rfl⟩

/-- Closed instance of `concatZ_resize_dispatch`. -/
theorem concatZ_resize_dispatch_witness :
    concatZResize [⟨5, 5, 5, 5⟩] [⟨1, 9, 17, 100⟩] =
      some ((8, 4, 1), (DivideRoundUp 17 8, DivideRoundUp 9 4, 1)) ∧
    concatZResize [] [⟨1, 9, 17, 100⟩] = some ((8, 4, 1), (3, 3, 1)) :=
  concatZ_resize_dispatch [⟨5, 5, 5, 5⟩] ⟨1, 9, 17, 100⟩ []

/-! ### Claim C9 -/

/-- Claim C9: the width and height generators read the first input
shape (`ConcatX` its height, `ConcatY` its width) for the destination
flat-index line, so they are defined exactly on non-empty shape lists;
the depth generator is total even on the empty list. -/
theorem concatXY_first_shape_access (s0 : BHWC) (rest : List BHWC) :
    (∃ mid, ConcatXCode (s0 :: rest) =
      some ([xPreamble] ++ mid ++
        ["const int linear_index = (gid.y + gid.z * " ++ toString s0.h ++
          ") * " ++ toString (concatXLoop 0 0 (s0 :: rest)).2 ++ " + gid.x;"] ++
        [xTail])) ∧
    (∃ mid, ConcatYCode (s0 :: rest) =
      some ([yPreamble] ++ mid ++
        ["const int linear_index = (gid.y + gid.z * " ++
          toString (concatYLoop 0 0 (s0 :: rest)).2 ++ ") * " ++ toString s0.w ++
          " + gid.x;"] ++
        [yTail])) ∧
    ConcatXCode [] = none ∧ ConcatYCode [] = none ∧
    (∀ d a, ConcatX d a [] = none ∧ ConcatY d a [] = none) ∧
    GetConcatZCode [] = [zPreamble, "\x7d\n"] :=
  ⟨⟨(concatXLoop 0 0 (s0 :: rest)).1, rfl⟩,
   ⟨(concatYLoop 0 0 (s0 :: rest)).1, rfl⟩,
   rfl, rfl, fun _ _ => ⟨rfl, rfl⟩, rfl⟩

/-! ### Claim C10 -/

/-- Claim C10: the uniform builders and resize functions of the width
and height generators depend only on the first destination shape — two
invocations agreeing there return identical results, whatever the
source shape lists are. -/
theorem concatXY_closures_depend_only_on_dst_head
    (src1 dst1 src2 dst2 : List BHWC) (h : dst1.head? = dst2.head?) :
    concatXUniform src1 dst1 = concatXUniform src2 dst2 ∧
    concatXResize src1 dst1 = concatXResize src2 dst2 ∧
    concatYUniform src1 dst1 = concatYUniform src2 dst2 ∧
    concatYResize src1 dst1 = concatYResize src2 dst2 := by
  cases dst1 with
  | nil =>
    cases dst2 with
    | nil => exact ⟨rfl, rfl, rfl, rfl⟩
    | cons d t => simp at h
  | cons d1 t1 =>
    cases dst2 with
    | nil => simp at h
    | cons d2 t2 =>
      simp only [List.head?_cons, Option.some.injEq] at h
      subst h
      exact ⟨rfl, rfl, rfl, rfl⟩

/-- Closed instance of `concatXY_closures_depend_only_on_dst_head`,
with entirely different source lists and different destination tails. -/
theorem concatXY_closures_depend_only_on_dst_head_witness :
    ([⟨1, 9, 17, 5⟩] : List BHWC).head? = ([⟨1, 9, 17, 5⟩, ⟨2, 2, 2, 2⟩] : List BHWC).head? ∧
    (concatXUniform [⟨9, 9, 9, 9⟩] [⟨1, 9, 17, 5⟩] =
       concatXUniform [] [⟨1, 9, 17, 5⟩, ⟨2, 2, 2, 2⟩] ∧
     concatXResize [⟨9, 9, 9, 9⟩] [⟨1, 9, 17, 5⟩] =
       concatXResize [] [⟨1, 9, 17, 5⟩, ⟨2, 2, 2, 2⟩] ∧
     concatYUniform [⟨9, 9, 9, 9⟩] [⟨1, 9, 17, 5⟩] =
       concatYUniform [] [⟨1, 9, 17, 5⟩, ⟨2, 2, 2, 2⟩] ∧
     concatYResize [⟨9, 9, 9, 9⟩] [⟨1, 9, 17, 5⟩] =
       concatYResize [] [⟨1, 9, 17, 5⟩, ⟨2, 2, 2, 2⟩]) :=
  ⟨rfl, concatXY_closures_depend_only_on_dst_head
    [⟨9, 9, 9, 9⟩] [⟨1, 9, 17, 5⟩] [] [⟨1, 9, 17, 5⟩, ⟨2, 2, 2, 2⟩] rfl⟩

/-! ### Flush-count lemmas for the unaligned depth path (claim C3) -/

theorem ne_flush_take {s : String} (k : Nat)
    (h : s.toList.take k ≠ flushLine.toList.take k) : s ≠ flushLine :=
  string_ne_of_take_ne h

theorem valuePiece_ne_flushLine (oc : Nat) :
    ("  value" ++ laneSuffix oc ++ " = ") ≠ flushLine := by
  apply ne_flush_take 3
  simp only [toList_append, List.append_assoc]
  rw [List.take_append_of_le_length (by decide)]
  decide

theorem tempPiece_ne_flushLine (r : String) (ch : Nat) :
    (("t" ++ r) ++ laneSuffix ch ++ ";\n") ≠ flushLine := by
  apply ne_flush_take 1
  simp only [toList_append, List.append_assoc]
  rw [List.take_append_of_le_length (by decide)]
  decide

theorem readPiece_ne_flushLine (ri i d : Nat) :
    ("  FLT4 " ++ ("t" ++ toString ri) ++ " = src_tensor" ++ toString i ++
      "[" ++ toString d ++ " * U.src_size.w + xy_offset];\n") ≠ flushLine := by
  apply ne_flush_take 3
  simp only [toList_append, List.append_assoc]
  rw [List.take_append_of_le_length (by decide)]
  decide

theorem flush_count_arith (len oc : Nat) (h4 : oc + 1 = 4) :
    1 + len / 4 = (oc + (len + 1)) / 4 ∧ len % 4 = (oc + (len + 1)) % 4 := by
  have hoc : oc = 3 := by omega
  subst hoc
  have he : 3 + (len + 1) = len + 4 := by omega
  rw [he]
  constructor
  · rw [Nat.add_div_right _ (by norm_num)]
    exact Nat.add_comm _ _
  · exact (Nat.add_mod_right _ _).symm

theorem step_count_arith (len oc : Nat) :
    (oc + 1 + len) / 4 = (oc + (len + 1)) / 4 ∧
    (oc + 1 + len) % 4 = (oc + (len + 1)) % 4 := by
  have he : oc + 1 + len = oc + (len + 1) := by omega
  rw [he]
  exact ⟨rfl, rfl⟩

theorem laneFold_flush_count (r : String) (chs : List Nat) (oc : Nat) (hoc : oc < 4) :
    (laneFold ("t" ++ r) chs oc).1.count flushLine = (oc + chs.length) / 4 ∧
    (laneFold ("t" ++ r) chs oc).2 = (oc + chs.length) % 4 := by
  induction chs generalizing oc with
  | nil =>
    refine ⟨?_, ?_⟩ <;> simp [laneFold]
    · exact (Nat.div_eq_of_lt hoc).symm
    · exact (Nat.mod_eq_of_lt hoc).symm
  | cons ch rest ih =>
    have hval := valuePiece_ne_flushLine oc
    have htmp := tempPiece_ne_flushLine r ch
    by_cases h4 : oc + 1 = 4
    · obtain ⟨ih1, ih2⟩ := ih 0 (by omega)
      have hfb : flushBlock.count flushLine = 1 := by
        have e1 : ("  \x7b\n" : String) ≠ flushLine := ne_flush_take 3 (by decide)
        have e2 : gidLine ≠ flushLine := ne_flush_take 5 (by decide)
        have e3 : ("    $2\n" : String) ≠ flushLine := ne_flush_take 5 (by decide)
        have e4 : ("    linear_index += U.src_size.w;\n" : String) ≠ flushLine :=
          ne_flush_take 6 (by decide)
        have e5 : ("    Z++;\n" : String) ≠ flushLine := ne_flush_take 5 (by decide)
        have e6 : ("  \x7d\n" : String) ≠ flushLine := ne_flush_take 3 (by decide)
        simp only [flushBlock, List.count_cons, List.count_nil,
          beq_eq_false_iff_ne.mpr e1, beq_eq_false_iff_ne.mpr e2,
          beq_eq_false_iff_ne.mpr e3, beq_eq_false_iff_ne.mpr e4,
          beq_eq_false_iff_ne.mpr e5, beq_eq_false_iff_ne.mpr e6,
          beq_self_eq_true, Bool.false_eq_true, if_false, if_true]
      have hexp : laneFold ("t" ++ r) (ch :: rest) oc =
          (["  value" ++ laneSuffix oc ++ " = ", ("t" ++ r) ++ laneSuffix ch ++ ";\n"] ++
            flushBlock ++ (laneFold ("t" ++ r) rest 0).1,
           (laneFold ("t" ++ r) rest 0).2) := by
        simp only [laneFold]
        rw [if_pos (by simp only [beq_iff_eq]; omega)]
      rw [hexp]
      have hb1 := beq_eq_false_iff_ne.mpr hval
      have hb2 := beq_eq_false_iff_ne.mpr htmp
      simp only [List.count_append, List.count_cons, List.count_nil, hfb, ih1, ih2,
        List.length_cons, hb1, hb2, Bool.false_eq_true, if_false, Nat.zero_add]
      exact flush_count_arith rest.length oc h4
    · obtain ⟨ih1, ih2⟩ := ih (oc + 1) (by omega)
      have hexp : laneFold ("t" ++ r) (ch :: rest) oc =
          (["  value" ++ laneSuffix oc ++ " = ", ("t" ++ r) ++ laneSuffix ch ++ ";\n"] ++
            (laneFold ("t" ++ r) rest (oc + 1)).1,
           (laneFold ("t" ++ r) rest (oc + 1)).2) := by
        simp only [laneFold]
        rw [if_neg (by simp only [beq_iff_eq]; omega)]
      rw [hexp]
      have hb1 := beq_eq_false_iff_ne.mpr hval
      have hb2 := beq_eq_false_iff_ne.mpr htmp
      simp only [List.count_append, List.count_cons, List.count_nil, ih1, ih2,
        List.length_cons, hb1, hb2, Bool.false_eq_true, if_false, Nat.zero_add]
      exact step_count_arith rest.length oc

theorem lanes_sum (c : Nat) :
    ((List.range (DivideRoundUp c 4)).map (fun d => min 4 (c - 4 * d))).sum = c := by
  induction c using Nat.strong_induction_on with
  | _ c ih =>
    rcases Nat.lt_or_ge c 5 with h5 | h5
    · interval_cases c <;> decide
    · have hd : DivideRoundUp c 4 = DivideRoundUp (c - 4) 4 + 1 := by
        unfold DivideRoundUp
        have he : c + 4 - 1 = (c - 4 + 4 - 1) + 4 := by omega
        rw [he, Nat.add_div_right _ (by norm_num)]
      rw [hd, List.range_succ_eq_map]
      simp only [List.map_cons, List.map_map, List.sum_cons]
      have hmap : (List.range (DivideRoundUp (c - 4) 4)).map
            ((fun d => min 4 (c - 4 * d)) ∘ (· + 1))
          = (List.range (DivideRoundUp (c - 4) 4)).map
            (fun d => min 4 ((c - 4) - 4 * d)) := by
        apply List.map_congr_left
        intro d _
        simp only [Function.comp]
        congr 1
        omega
      rw [hmap, ih (c - 4) (by omega)]
      omega

theorem depthFold_flush_count (i c : Nat) (ds : List Nat) (ri oc : Nat) (hoc : oc < 4) :
    (depthFold i c ds ri oc).1.count flushLine
        = (oc + (ds.map (fun d => min 4 (c - 4 * d))).sum) / 4 ∧
    (depthFold i c ds ri oc).2.2
        = (oc + (ds.map (fun d => min 4 (c - 4 * d))).sum) % 4 := by
  induction ds generalizing ri oc with
  | nil =>
    refine ⟨?_, ?_⟩ <;> simp [depthFold] <;> omega
  | cons d rest ih =>
    have hread := readPiece_ne_flushLine ri i d
    obtain ⟨l1, l2⟩ := laneFold_flush_count (toString ri) (List.range (min 4 (c - 4 * d))) oc hoc
    rw [List.length_range] at l1 l2
    obtain ⟨r1, r2⟩ := ih (ri + 1) ((laneFold ("t" ++ toString ri) (List.range (min 4 (c - 4 * d))) oc).2)
      (by rw [l2]; omega)
    constructor
    · simp only [depthFold, List.count_append, List.count_cons, List.map_cons, List.sum_cons,
        beq_eq_false_iff_ne.mpr hread, Bool.false_eq_true, if_false]
      rw [r1, l1, l2]
      omega
    · simp only [depthFold, List.map_cons, List.sum_cons]
      rw [r2, l2]
      omega

theorem inputsFold_flush_count (items : List (Nat × Nat)) (ri oc : Nat) (hoc : oc < 4) :
    (inputsFold items ri oc).1.count flushLine
        = (oc + (items.map Prod.snd).sum) / 4 ∧
    (inputsFold items ri oc).2 = (oc + (items.map Prod.snd).sum) % 4 := by
  induction items generalizing ri oc with
  | nil =>
    refine ⟨?_, ?_⟩ <;> simp [inputsFold] <;> omega
  | cons p rest ih =>
    obtain ⟨i, c⟩ := p
    obtain ⟨d1, d2⟩ := depthFold_flush_count i c (List.range (DivideRoundUp c 4)) ri oc hoc
    rw [lanes_sum] at d1 d2
    obtain ⟨r1, r2⟩ := ih (depthFold i c (List.range (DivideRoundUp c 4)) ri oc).2.1
      (depthFold i c (List.range (DivideRoundUp c 4)) ri oc).2.2
      (by rw [d2]; omega)
    constructor
    · simp only [inputsFold, List.count_append, List.map_cons, List.sum_cons]
      rw [r1, d1, d2]
      omega
    · simp only [inputsFold, List.map_cons, List.sum_cons]
      rw [r2, d2]
      omega

theorem unalignedBody_flush_count (channels : List Nat) :
    (unalignedBody channels).count flushLine = DivideRoundUp channels.sum 4 := by
  unfold unalignedBody
  obtain ⟨h1, h2⟩ := inputsFold_flush_count channels.enum 0 0 (by omega)
  rw [List.enum_map_snd] at h1 h2
  have htr : trailingFlushBlock.count flushLine = 1 := by
    have e1 : ("  \x7b\n" : String) ≠ flushLine := ne_flush_take 3 (by decide)
    have e2 : gidLine ≠ flushLine := ne_flush_take 5 (by decide)
    have e3 : ("    $2\n" : String) ≠ flushLine := ne_flush_take 5 (by decide)
    have e6 : ("  \x7d\n" : String) ≠ flushLine := ne_flush_take 3 (by decide)
    simp only [trailingFlushBlock, List.count_cons, List.count_nil,
      beq_eq_false_iff_ne.mpr e1, beq_eq_false_iff_ne.mpr e2,
      beq_eq_false_iff_ne.mpr e3, beq_eq_false_iff_ne.mpr e6,
      beq_self_eq_true, Bool.false_eq_true, if_false, if_true]
  simp only [List.count_append, h1, h2]
  by_cases hz : channels.sum % 4 = 0
  · rw [if_neg (by simp [hz])]
    simp only [List.count_nil]
    unfold DivideRoundUp
    omega
  · rw [if_pos (by simp [hz]), htr]
    unfold DivideRoundUp
    omega

/-! ### Claim C3 -/

/-- Claim C3: on the unaligned depth path (some channel count not a
multiple of 4) the number of destination write blocks — occurrences of
the store line — equals `ceil(total_channels / 4)`; in particular no
trailing flush is emitted when the lane counter ends on a multiple
of 4. -/
theorem concatZ_unaligned_flush_count (channels : List Nat)
    (h : ∃ c ∈ channels, c % 4 ≠ 0) :
    (GetConcatZCode channels).count flushLine = DivideRoundUp channels.sum 4 := by
  have hf : IsAllChannelsX4 channels = false := by
    obtain ⟨c, hc, hc4⟩ := h
    simp only [IsAllChannelsX4, List.all_eq_false]
    exact ⟨c, hc, by simp [hc4]⟩
  rw [GetConcatZCode, hf]
  simp only [Bool.false_eq_true, if_false, List.count_append, List.count_cons,
    List.count_nil, beq_iff_eq]
  rw [if_neg (by decide), if_neg (by decide)]
  simp [unalignedBody_flush_count]

/-- Closed instance of `concatZ_unaligned_flush_count` at the spec's
[3,5] scenario: two flush blocks, no trailing partial flush. -/
theorem concatZ_unaligned_flush_count_witness :
    (∃ c ∈ [3, 5], c % 4 ≠ 0) ∧
    (GetConcatZCode [3, 5]).count flushLine = DivideRoundUp (List.sum [3, 5]) 4 ∧
    DivideRoundUp (List.sum [3, 5]) 4 = 2 :=
  ⟨by decide, concatZ_unaligned_flush_count [3, 5] (by decide), by decide⟩

/-! ### Bracket-adjacency and character-count scans -/

theorem cleanBrackets_tail {a : Char} {rest : List Char}
    (h : cleanBrackets (a :: rest) = true) : cleanBrackets rest = true := by
  cases rest with
  | nil => rfl
  | cons b t => exact ((Bool.and_eq_true _ _).mp h).2

theorem cleanBrackets_sound : ∀ (l : List Char), cleanBrackets l = true →
    ∀ x : Char, (x == 'r' || x.isDigit) = true → ¬ ([x, '['] <:+: l) := by
  intro l
  induction l with
  | nil =>
    intro _ x _ hinf
    rw [List.infix_nil] at hinf
    exact List.noConfusion hinf
  | cons a rest ih =>
    intro h x hx hinf
    rcases List.infix_cons_iff.mp hinf with hpre | hinf2
    · obtain ⟨t, ht⟩ := hpre
      cases rest with
      | nil => exact List.noConfusion (List.cons.inj ht).2
      | cons b t2 =>
        obtain ⟨h1, ht⟩ := List.cons.inj ht
        obtain ⟨h2, _⟩ := List.cons.inj ht
        subst h1
        subst h2
        have hand := ((Bool.and_eq_true _ _).mp h).1
        rw [beq_self_eq_true, Bool.true_and, hx] at hand
        exact Bool.noConfusion hand
    · exact ih (cleanBrackets_tail h) x hx hinf2

set_option maxRecDepth 40000 in
theorem zPreamble_cleanBrackets : cleanBrackets zPreamble.toList = true := by decide

set_option maxRecDepth 40000 in
theorem xPreamble_cleanBrackets : cleanBrackets xPreamble.toList = true := by decide

set_option maxRecDepth 40000 in
theorem yPreamble_cleanBrackets : cleanBrackets yPreamble.toList = true := by decide

set_option maxRecDepth 40000 in
theorem zPreamble_count_w : zPreamble.toList.count 'w' = 0 := by decide

theorem dstSizeW_not_infix_zPreamble :
    ¬ ("U.dst_size.w".toList <:+: zPreamble.toList) := by
  intro h
  have hle := h.sublist.count_le 'w'
  rw [zPreamble_count_w] at hle
  have hone : "U.dst_size.w".toList.count 'w' = 1 := by decide
  rw [hone] at hle
  exact absurd hle (by decide)

/-! ### Claim C2 -/

set_option maxRecDepth 4000 in
/-- Claim C2 counterexample: in the aligned depth path the generated
text advances `linear_index` by `U.src_size.w` — the uniform slot that
the builder fills with the FIRST SOURCE's width times height — and no
emitted piece mentions `U.dst_size.w` at all; at source shape
(w=1, h=1) and destination shape (w=2, h=2) the slot value 1*1 differs
from the destination per-layer stride 2*2, so the stride added in the
generated text is not the destination's per-layer stride. -/
theorem concatZ_stride_text_counterexample :
    "    linear_index += U.src_size.w;\n" ∈ GetConcatZCode [4] ∧
    ¬ (∃ s ∈ GetConcatZCode [4], "U.dst_size.w".toList <:+: s.toList) ∧
    concatZUniformParams [⟨1, 1, 1, 4⟩] [⟨1, 2, 2, 4⟩] =
      some [1, 1, 1, 1 * 1, 2, 2, 1, 2 * 2] ∧
    (1 * 1 : Nat) ≠ 2 * 2 := by
  have hcode : GetConcatZCode [4] = [zPreamble] ++ alignedBlock 0 4 ++ ["\x7d\n"] := rfl
  refine ⟨?_, ?_, rfl, by decide⟩
  · rw [hcode, alignedBlock]
    simp
  · rintro ⟨s, hs, hinf⟩
    have hw : ('w' : Char) ∈ "U.dst_size.w".toList := by decide
    rw [hcode, alignedBlock] at hs
    simp only [List.mem_append, List.mem_cons, List.not_mem_nil, or_false] at hs
    rcases hs with (rfl | rfl | rfl | rfl | rfl | rfl | rfl | rfl | rfl | rfl) | rfl
    · exact dstSizeW_not_infix_zPreamble hinf
    · exact absurd (hinf.mem hw) (by decide)
    · exact absurd hinf (by decide)
    · exact absurd (hinf.mem hw) (by decide)
    · exact absurd (hinf.mem hw) (by decide)
    · exact absurd (hinf.mem hw) (by decide)
    · exact absurd (hinf.mem hw) (by decide)
    · exact absurd hinf (by decide)
    · exact absurd (hinf.mem hw) (by decide)
    · exact absurd (hinf.mem hw) (by decide)
    · exact absurd (hinf.mem hw) (by decide)

/-- Claim C2 (amended): in the aligned depth path each per-input loop
body reads one vector from that input at the running flat index into
`value`, stores `value` to the destination at `linear_index`, advances
`linear_index` by `U.src_size.w` — the first source's per-layer stride
(source width times source height in the uniform), which equals the
destination's per-layer stride only under the caller's precondition
that widths and heights agree — and increments `Z`. -/
theorem concatZ_aligned_loop_block (channels : List Nat) (i c : Nat)
    (hx4 : IsAllChannelsX4 channels = true) (hget : channels[i]? = some c) :
    (∃ pre post, GetConcatZCode channels =
      pre ++
      ["  for (int i = 0; i < " ++ toString (DivideRoundUp c 4) ++ "; ++i) \x7b\n",
       "    int src_index = i * U.src_size.w + xy_offset;\n",
       "    value = src_tensor" ++ toString i ++ "[src_index];\n",
       gidLine,
       "    $2\n",
       flushLine,
       "    linear_index += U.src_size.w;\n",
       "    Z++;\n",
       "  \x7d\n"] ++ post) ∧
    (∀ s0 d0 : BHWC, ∀ srest drest : List BHWC, ∃ params,
       concatZUniformParams (s0 :: srest) (d0 :: drest) = some params ∧
       params[3]? = some (s0.w * s0.h)) := by
  constructor
  · have henum : channels.enum[i]? = some (i, c) := by
      rw [List.getElem?_enum]
      simp [hget]
    have hmem : (i, c) ∈ channels.enum := List.getElem?_mem henum
    obtain ⟨l1, l2, hsplit⟩ := List.append_of_mem hmem
    refine ⟨[zPreamble] ++ l1.flatMap (fun p => alignedBlock p.1 p.2),
            (l2.flatMap (fun p => alignedBlock p.1 p.2)) ++ ["\x7d\n"], ?_⟩
    rw [GetConcatZCode, hx4, if_pos rfl]
    unfold alignedBody
    rw [hsplit]
    simp [List.append_assoc, alignedBlock]
  · intro s0 d0 srest drest
    exact ⟨_, rfl, rfl⟩

/-- Closed instance of `concatZ_aligned_loop_block` at channels [4, 8],
input 1. -/
theorem concatZ_aligned_loop_block_witness :
    IsAllChannelsX4 [4, 8] = true ∧ [4, 8][1]? = some 8 ∧
    ((∃ pre post, GetConcatZCode [4, 8] =
      pre ++
      ["  for (int i = 0; i < " ++ toString (DivideRoundUp 8 4) ++ "; ++i) \x7b\n",
       "    int src_index = i * U.src_size.w + xy_offset;\n",
       "    value = src_tensor" ++ toString 1 ++ "[src_index];\n",
       gidLine,
       "    $2\n",
       flushLine,
       "    linear_index += U.src_size.w;\n",
       "    Z++;\n",
       "  \x7d\n"] ++ post) ∧
    (∀ s0 d0 : BHWC, ∀ srest drest : List BHWC, ∃ params,
       concatZUniformParams (s0 :: srest) (d0 :: drest) = some params ∧
       params[3]? = some (s0.w * s0.h))) :=
  ⟨by decide, by decide, concatZ_aligned_loop_block [4, 8] 1 8 (by decide) (by decide)⟩

/-! ### Structure of the width-axis branch chain (claim C4) -/

theorem concatXLoop_snd (l : List BHWC) : ∀ k ow,
    (concatXLoop k ow l).2 = ow + (l.map (fun s => s.w)).sum := by
  induction l with
  | nil => intro k ow; simp [concatXLoop]
  | cons d t ih =>
    intro k ow
    simp only [concatXLoop]
    rw [ih]
    simp [Nat.add_assoc]

theorem concatXLoop_fst (l : List BHWC) : ∀ k ow,
    (concatXLoop k ow l).1 =
      (List.range l.length).flatMap (fun j =>
        (if j + 1 < l.length then
           ["if (gid.x < " ++ toString (ow + ((l.take (j + 1)).map (fun s => s.w)).sum) ++ ")"]
         else []) ++
        (match l.get? j with
         | some dims =>
           ["value = src_tensor" ++ toString (k + j) ++ "[(gid.y + gid.z * " ++
             toString dims.h ++ ") * " ++ toString dims.w ++ " + gid.x - " ++
             toString (ow + ((l.take j).map (fun s => s.w)).sum) ++ "];\n"]
         | none => []) ++
        (if j + 1 < l.length then ["else "] else [])) := by
  induction l with
  | nil => intro k ow; simp [concatXLoop]
  | cons d t ih =>
    intro k ow
    simp only [concatXLoop]
    rw [ih (k + 1) (ow + d.w)]
    rw [List.length_cons, List.range_succ_eq_map, List.flatMap_cons, List.flatMap_map]
    congr 1
    · cases t with
      | nil => simp
      | cons e u => simp [Nat.add_sub_cancel]
    · apply List.flatMap_congr
      intro j hj
      have hk : k + 1 + j = k + (j + 1) := by omega
      simp only [Function.comp, List.take_succ_cons, List.get?_cons_succ, List.map_cons,
        List.sum_cons, Nat.succ_lt_succ_iff, List.length_cons, Nat.add_assoc, hk]

theorem isPrefixOf_append_self (a : String) (rest : List Char) :
    (a.toList).isPrefixOf (a.toList ++ rest) = true :=
  List.isPrefixOf_iff_prefix.mpr (List.prefix_append _ _)

theorem isPrefixOf_false_head (pat : List Char) (a b : String)
    (hp0 : 1 ≤ pat.length) (hlen : 1 ≤ a.toList.length)
    (hne : pat.take 1 ≠ a.toList.take 1) :
    pat.isPrefixOf (a ++ b).toList = false := by
  rw [Bool.eq_false_iff]
  intro hpf
  obtain ⟨t, ht⟩ := List.isPrefixOf_iff_prefix.mp hpf
  apply hne
  have h1 : (pat ++ t).take 1 = pat.take 1 := List.take_append_of_le_length hp0
  rw [← h1, ht, toList_append, List.take_append_of_le_length hlen]

theorem concatXLoop_if_count (l : List BHWC) : ∀ k ow,
    ((concatXLoop k ow l).1.countP
        (fun s => ("if (gid.x < ".toList).isPrefixOf s.toList)) = l.length - 1 := by
  induction l with
  | nil => intro k ow; simp [concatXLoop]
  | cons d t ih =>
    intro k ow
    have hval : ("if (gid.x < ".toList).isPrefixOf
        ("value = src_tensor" ++ toString k ++ "[(gid.y + gid.z * " ++
          toString d.h ++ ") * " ++ toString d.w ++ " + gid.x - " ++
          toString (ow + d.w - d.w) ++ "];\n").toList = false := by
      simp only [String.append_assoc]
      exact isPrefixOf_false_head _ "value = src_tensor" _ (by decide) (by decide) (by decide)
    have hif : ∀ n : Nat, ("if (gid.x < ".toList).isPrefixOf
        ("if (gid.x < " ++ toString n ++ ")").toList = true := by
      intro n
      have he : ("if (gid.x < " ++ toString n ++ ")").toList
          = "if (gid.x < ".toList ++ ((toString n).toList ++ ")".toList) := by
        simp [toList_append]
      rw [he]
      exact isPrefixOf_append_self _ _
    have helse : ("if (gid.x < ".toList).isPrefixOf ("else ").toList = false := by decide
    simp only [concatXLoop]
    cases t with
    | nil =>
      simp [List.countP_cons, hval, concatXLoop]
    | cons e u =>
      have hih := ih (k + 1) (ow + d.w)
      simp only [List.isEmpty_cons, Bool.false_eq_true, if_false, List.countP_append,
        List.countP_cons, List.countP_nil, hval, hif, helse, hih, List.length_cons,
        if_true, if_false]
      omega

theorem concatXBranchesSpec_eq (s0 : BHWC) (rest : List BHWC) :
    concatXBranchesSpec (s0 :: rest) = (concatXLoop 0 0 (s0 :: rest)).1 := by
  rw [concatXLoop_fst]
  unfold concatXBranchesSpec cumulativeWidth
  apply List.flatMap_congr
  intro j hj
  simp only [Nat.zero_add]

/-! ### Claim C4 -/

/-- Claim C4: the width generator emits, for a non-empty shape list of
length N, exactly N-1 conditional pieces `if (gid.x < c_k)` with `c_k`
the cumulative width of inputs 0..k, each source read subtracting the
cumulative width before that input, the last input unguarded, and the
destination flat-index line using the total cumulative width; at widths
[2,3,4] (heights 5) the chain is x<2, x<5, else, with total width 9. -/
theorem concatX_branch_chain (s0 : BHWC) (rest : List BHWC) :
    ConcatXCode (s0 :: rest) =
      some ([xPreamble] ++ concatXBranchesSpec (s0 :: rest) ++
        ["const int linear_index = (gid.y + gid.z * " ++ toString s0.h ++ ") * " ++
          toString (cumulativeWidth (s0 :: rest) (s0 :: rest).length) ++ " + gid.x;"] ++
        [xTail]) ∧
    (concatXBranchesSpec (s0 :: rest)).countP
        (fun s => ("if (gid.x < ".toList).isPrefixOf s.toList) = rest.length ∧
    cumulativeWidth (s0 :: rest) (s0 :: rest).length =
      ((s0 :: rest).map (fun s => s.w)).sum ∧
    concatXBranchesSpec [⟨1, 5, 2, 8⟩, ⟨1, 5, 3, 8⟩, ⟨1, 5, 4, 8⟩] =
      ["if (gid.x < 2)",
       "value = src_tensor0[(gid.y + gid.z * 5) * 2 + gid.x - 0];\n",
       "else ",
       "if (gid.x < 5)",
       "value = src_tensor1[(gid.y + gid.z * 5) * 3 + gid.x - 2];\n",
       "else ",
       "value = src_tensor2[(gid.y + gid.z * 5) * 4 + gid.x - 5];\n"] ∧
    cumulativeWidth [⟨1, 5, 2, 8⟩, ⟨1, 5, 3, 8⟩, ⟨1, 5, 4, 8⟩] 3 = 9 := by
  have hcw : cumulativeWidth (s0 :: rest) (s0 :: rest).length =
      ((s0 :: rest).map (fun s => s.w)).sum := by
    unfold cumulativeWidth
    rw [List.take_length]
  refine ⟨?_, ?_, hcw, rfl, rfl⟩
  · have h2 : (concatXLoop 0 0 (s0 :: rest)).2 =
        cumulativeWidth (s0 :: rest) (s0 :: rest).length := by
      rw [concatXLoop_snd, hcw]
      simp
    rw [concatXBranchesSpec_eq, ← h2]
    rfl
  · rw [concatXBranchesSpec_eq, concatXLoop_if_count]
    simp

/-! ### Reference-name analysis for the generated sources (claim C8) -/

theorem digitChar_digit (m : Nat) (h : m < 10) : (Nat.digitChar m).isDigit = true := by
  interval_cases m <;> decide

theorem toDigitsCore_digits (fuel : Nat) : ∀ (n : Nat) (ds : List Char),
    (∀ c ∈ ds, c.isDigit = true) →
    ∀ c ∈ Nat.toDigitsCore 10 fuel n ds, c.isDigit = true := by
  induction fuel with
  | zero => intro n ds hds; simpa [Nat.toDigitsCore] using hds
  | succ fuel ih =>
    intro n ds hds
    rw [Nat.toDigitsCore]
    have hd : (Nat.digitChar (n % 10)).isDigit = true :=
      digitChar_digit _ (Nat.mod_lt _ (by norm_num))
    by_cases h : n / 10 = 0
    · simp only [h, if_pos rfl]
      intro c hc
      rcases List.mem_cons.mp hc with rfl | hc
      · exact hd
      · exact hds _ hc
    · simp only [if_neg h]
      refine ih (n / 10) _ ?_
      intro c hc
      rcases List.mem_cons.mp hc with rfl | hc
      · exact hd
      · exact hds _ hc

theorem toString_nat_digits (n : Nat) : ∀ c ∈ (toString n).toList, c.isDigit = true :=
  toDigitsCore_digits (n + 1) n [] (by simp)

theorem toDigitsCore_length (fuel : Nat) : ∀ (n : Nat) (ds : List Char),
    ds.length ≤ (Nat.toDigitsCore 10 fuel n ds).length := by
  induction fuel with
  | zero => intro n ds; simp [Nat.toDigitsCore]
  | succ fuel ih =>
    intro n ds
    rw [Nat.toDigitsCore]
    by_cases h : n / 10 = 0
    · simp [h]
    · simp only [if_neg h]
      calc ds.length ≤ (Nat.digitChar (n % 10) :: ds).length := by simp
        _ ≤ _ := ih (n / 10) _

theorem toString_nat_ne_nil (n : Nat) : (toString n).toList ≠ [] := by
  intro he
  have h1 : (toString n).toList = Nat.toDigitsCore 10 (n + 1) n [] := rfl
  rw [h1] at he
  have h2 := toDigitsCore_length n (n / 10) [Nat.digitChar (n % 10)]
  rw [Nat.toDigitsCore] at he
  by_cases h : n / 10 = 0
  · simp [h] at he
  · rw [if_neg h] at he
    rw [he] at h2
    simp at h2

theorem digit_ne_bracket {c : Char} (h : c.isDigit = true) : c ≠ '[' := by
  intro he
  subst he
  exact absurd h (by decide)

theorem bracket_not_mem_toString (n : Nat) : '[' ∉ (toString n).toList :=
  fun h => digit_ne_bracket (toString_nat_digits n _ h) rfl

theorem bracket_not_mem_append {a b : String} (ha : '[' ∉ a.toList) (hb : '[' ∉ b.toList) :
    '[' ∉ (a ++ b).toList := by
  rw [toList_append]
  simp only [List.mem_append]
  rintro (h | h)
  · exact ha h
  · exact hb h

theorem prefix_of_prefix_append {l a b : List Char} (h : l <+: a ++ b)
    (hl : l.length ≤ a.length) : l <+: a := by
  have h1 : l = (a ++ b).take l.length := List.prefix_iff_eq_take.mp h
  rw [List.take_append_of_le_length hl] at h1
  rw [h1]
  exact List.take_prefix _ _

theorem suffix_of_suffix_append {l a b : List Char} (h : l <:+ a ++ b)
    (hl : l.length ≤ b.length) : l <:+ b := by
  rw [← List.reverse_prefix] at h ⊢
  rw [List.reverse_append] at h
  have h1 := List.prefix_iff_eq_take.mp h
  rw [List.take_append_of_le_length (by simpa using hl)] at h1
  rw [h1]
  exact List.take_prefix _ _

theorem first_occ_eq {x : Char} : ∀ {a : List Char} (a' : List Char) {b b' : List Char},
    a ++ x :: b = a' ++ x :: b' → x ∉ a → x ∉ a' → a = a' ∧ b = b' := by
  intro a
  induction a with
  | nil =>
    intro a' b b' h hx hx'
    cases a' with
    | nil => simpa using h
    | cons y t =>
      simp only [List.nil_append, List.cons_append, List.cons.injEq] at h
      obtain ⟨rfl, hb⟩ := h
      exact absurd (List.mem_cons_self _ _) hx'
  | cons y t ih =>
    intro a' b b' h hx hx'
    cases a' with
    | nil =>
      simp only [List.nil_append, List.cons_append, List.cons.injEq] at h
      obtain ⟨rfl, hb⟩ := h
      exact absurd (List.mem_cons_self _ _) hx
    | cons z t' =>
      simp only [List.cons_append, List.cons.injEq] at h
      obtain ⟨rfl, h2⟩ := h
      have hr := ih t' h2 (fun hm => hx (List.mem_cons_of_mem _ hm))
        (fun hm => hx' (List.mem_cons_of_mem _ hm))
      exact ⟨by rw [hr.1], hr.2⟩

theorem pat_before_unique {P L1 L2 : List Char} {b : Char}
    (hP : b ∉ P) (h1 : b ∉ L1) (h2 : b ∉ L2)
    (h : (P ++ [b]) <:+: (L1 ++ b :: L2)) : P <:+ L1 := by
  obtain ⟨s, t, hst⟩ := h
  have hst' : (s ++ P) ++ b :: t = L1 ++ b :: L2 := by
    rw [← hst]
    simp [List.append_assoc]
  have hcount : List.count b ((s ++ P) ++ b :: t) = List.count b (L1 ++ b :: L2) := by
    rw [hst']
  have hcL : List.count b (L1 ++ b :: L2) = 1 := by
    rw [List.count_append, List.count_cons]
    rw [List.count_eq_zero.mpr h1, List.count_eq_zero.mpr h2]
    simp
  rw [hcL] at hcount
  rw [List.count_append, List.count_append, List.count_cons] at hcount
  rw [List.count_eq_zero.mpr hP] at hcount
  simp at hcount
  have hs : b ∉ s := by
    rw [← List.count_eq_zero]
    omega
  have hsp : b ∉ s ++ P := by
    simp only [List.mem_append]
    rintro (hc | hc)
    · exact hs hc
    · exact hP hc
  have := first_occ_eq L1 hst' hsp h1
  exact ⟨s, this.1⟩

theorem infix_digit_split {P A D B : List Char} (hPne : P ≠ [])
    (hP : ∀ c ∈ P, ¬ c.isDigit = true) (hD : ∀ c ∈ D, c.isDigit = true) (hDne : D ≠ [])
    (h : P <:+: A ++ (D ++ B)) : P <:+: A ∨ P <:+: B := by
  obtain ⟨s, t, hst⟩ := h
  by_cases hc1 : s.length + P.length ≤ A.length
  · left
    have hpre : (s ++ P) <+: (A ++ (D ++ B)) :=
      ⟨t, by simpa [List.append_assoc] using hst⟩
    have h2 : (s ++ P) <+: A :=
      prefix_of_prefix_append hpre (by simp only [List.length_append]; omega)
    obtain ⟨u, hu⟩ := h2
    exact ⟨s, u, by simp [← hu, List.append_assoc]⟩
  · by_cases hc2 : A.length + D.length ≤ s.length
    · right
      have hsuf : (P ++ t) <:+ ((A ++ D) ++ B) := by
        refine ⟨s, ?_⟩
        simpa [List.append_assoc] using hst
      have hlen : (P ++ t).length ≤ B.length := by
        have htot := congrArg List.length hst
        simp only [List.length_append] at htot ⊢
        omega
      have h2 : (P ++ t) <:+ B := suffix_of_suffix_append hsuf hlen
      obtain ⟨u, hu⟩ := h2
      exact ⟨u, t, by simp [← hu, List.append_assoc]⟩
    · exfalso
      have hD0 : 0 < D.length := List.length_pos.mpr hDne
      have hP0 : 0 < P.length := List.length_pos.mpr hPne
      set j := max s.length A.length with hj
      have hjs : s.length ≤ j := Nat.le_max_left _ _
      have hjA : A.length ≤ j := Nat.le_max_right _ _
      have hjP : j < s.length + P.length := by omega
      have hjD : j < A.length + D.length := by omega
      have hbP : j - s.length < P.length := by omega
      have hbD : j - A.length < D.length := by omega
      have hchain : P[j - s.length]? = D[j - A.length]? := by
        calc P[j - s.length]? = (P ++ t)[j - s.length]? :=
              (List.getElem?_append_left hbP).symm
          _ = (s ++ (P ++ t))[j]? := (List.getElem?_append_right hjs).symm
          _ = (A ++ (D ++ B))[j]? := by
              rw [show s ++ (P ++ t) = A ++ (D ++ B) from by
                rw [← hst]; simp [List.append_assoc]]
          _ = (D ++ B)[j - A.length]? := List.getElem?_append_right hjA
          _ = D[j - A.length]? := List.getElem?_append_left hbD
      rw [List.getElem?_eq_getElem hbP, List.getElem?_eq_getElem hbD,
        Option.some.injEq] at hchain
      have hd := hD _ (List.getElem_mem hbD)
      have hp := hP _ (List.getElem_mem hbP)
      rw [← hchain] at hd
      exact hp hd

theorem digit_prefix_eq : ∀ (Y : List Char) (X s t : List Char),
    (∀ c ∈ Y, c.isDigit = true) → (∀ c ∈ X, c.isDigit = true) →
    (∃ c, s.head? = some c ∧ c.isDigit = false) →
    (∃ c, t.head? = some c ∧ c.isDigit = false) →
    (Y ++ s) <+: (X ++ t) → Y = X := by
  intro Y
  induction Y with
  | nil =>
    intro X s t hY hX hs ht h
    obtain ⟨c, hc, hcd⟩ := hs
    cases X with
    | nil => rfl
    | cons x xs =>
      exfalso
      cases s with
      | nil => simp at hc
      | cons a as =>
        simp only [List.head?_cons, Option.some.injEq] at hc
        subst hc
        simp only [List.nil_append, List.cons_append] at h
        have := (List.cons_prefix_cons.mp h).1
        subst this
        rw [hX _ (List.mem_cons_self _ _)] at hcd
        simp at hcd
  | cons y ys ih =>
    intro X s t hY hX hs ht h
    cases X with
    | nil =>
      exfalso
      obtain ⟨c, hc, hcd⟩ := ht
      cases t with
      | nil => simp at hc
      | cons a as =>
        simp only [List.head?_cons, Option.some.injEq] at hc
        subst hc
        simp only [List.cons_append, List.nil_append] at h
        have := (List.cons_prefix_cons.mp h).1
        subst this
        rw [hY _ (List.mem_cons_self _ _)] at hcd
        simp at hcd
    | cons x xs =>
      simp only [List.cons_append] at h
      obtain ⟨rfl, h2⟩ := List.cons_prefix_cons.mp h
      have := ih xs s t (fun c hc => hY c (List.mem_cons_of_mem _ hc))
        (fun c hc => hX c (List.mem_cons_of_mem _ hc)) hs ht h2
      rw [this]

theorem digit_suffix_eq {s t X Y : List Char}
    (hY : ∀ c ∈ Y, c.isDigit = true) (hX : ∀ c ∈ X, c.isDigit = true)
    (hs : s.getLast? = some 'r') (ht : t.getLast? = some 'r')
    (h : (s ++ Y) <:+ (t ++ X)) : Y = X := by
  have h' : (Y.reverse ++ s.reverse) <+: (X.reverse ++ t.reverse) := by
    rw [← List.reverse_append, ← List.reverse_append]
    exact List.reverse_prefix.mpr h
  have hYX := digit_prefix_eq Y.reverse X.reverse s.reverse t.reverse
    (fun c hc => hY c (List.mem_reverse.mp hc))
    (fun c hc => hX c (List.mem_reverse.mp hc))
    ⟨'r', by rw [List.head?_reverse, hs], by decide⟩
    ⟨'r', by rw [List.head?_reverse, ht], by decide⟩
    h'
  exact List.reverse_injective hYX

theorem refBound_of_no_bracket {s : String} (h : '[' ∉ s.toList) (N : Nat) :
    RefBound N s := by
  intro Y hY hin
  exact absurd (hin.mem (by simp [srcRefPat])) h

theorem refBound_of_no_srcname {s : String}
    (h : ¬ ("src_tensor".toList <:+: s.toList)) (N : Nat) : RefBound N s := by
  intro Y hY hin
  exfalso
  apply h
  refine List.IsPrefix.isInfix ?_ |>.trans hin
  exact ⟨Y ++ ['['], by simp [srcRefPat, List.append_assoc]⟩

theorem srcRefPat_pair_suffix : ∀ (Y : List Char),
    ∃ x, ((x == 'r' || x.isDigit) = true ∨ x ∈ Y) ∧ [x, '['] <:+: srcRefPat Y := by
  intro Y
  rcases List.eq_nil_or_concat Y with rfl | ⟨Y2, d, rfl⟩
  · exact ⟨'r', Or.inl (by decide), ⟨"src_tenso".toList, [], by decide⟩⟩
  · refine ⟨d, Or.inr (by simp), ?_⟩
    have hsh : srcRefPat (Y2 ++ [d]) = ("src_tensor".toList ++ Y2) ++ [d, '['] := by
      simp [srcRefPat, List.append_assoc]
    rw [List.concat_eq_append, hsh]
    exact (List.suffix_append _ _).isInfix

theorem refBound_of_cleanBrackets {s : String}
    (h : cleanBrackets s.toList = true) (N : Nat) : RefBound N s := by
  intro Y hY hin
  exfalso
  obtain ⟨x, hx, hpair⟩ := srcRefPat_pair_suffix Y
  have hxr : (x == 'r' || x.isDigit) = true := by
    rcases hx with hx | hx
    · exact hx
    · rw [hY x hx]
      exact Bool.or_true _
  exact cleanBrackets_sound s.toList h x hxr (hpair.trans hin)

theorem refBound_of_shape {N i : Nat} (s : String) (pre post : String)
    (hiN : i < N)
    (hsh : s.toList = pre.toList ++ ((toString i).toList ++ ('[' :: post.toList)))
    (hb1 : '[' ∉ pre.toList) (hb2 : '[' ∉ post.toList)
    (hpe : pre.toList.getLast? = some 'r') :
    RefBound N s := by
  intro Y hY hin
  rw [hsh] at hin
  have hre : srcRefPat Y = ("src_tensor".toList ++ Y) ++ ['['] := by
    simp [srcRefPat]
  rw [hre] at hin
  have hX : ∀ c ∈ (toString i).toList, c.isDigit = true := toString_nat_digits i
  have hch : pre.toList ++ ((toString i).toList ++ ('[' :: post.toList))
      = (pre.toList ++ (toString i).toList) ++ '[' :: post.toList := by
    simp [List.append_assoc]
  rw [hch] at hin
  have hPnb : '[' ∉ "src_tensor".toList ++ Y := by
    simp only [List.mem_append]
    rintro (hc | hc)
    · exact absurd hc (by decide)
    · exact digit_ne_bracket (hY _ hc) rfl
  have hL1nb : '[' ∉ pre.toList ++ (toString i).toList := by
    simp only [List.mem_append]
    rintro (hc | hc)
    · exact hb1 hc
    · exact bracket_not_mem_toString i hc
  have hsufP : ("src_tensor".toList ++ Y) <:+ (pre.toList ++ (toString i).toList) :=
    pat_before_unique hPnb hL1nb hb2 hin
  have hYX : Y = (toString i).toList :=
    digit_suffix_eq hY hX (by decide) hpe hsufP
  exact ⟨i, hiN, hYX⟩

theorem bracket_not_mem_laneSuffix (oc : Nat) : '[' ∉ (laneSuffix oc).toList := by
  match oc with
  | 0 => decide
  | 1 => decide
  | 2 => decide
  | m + 3 =>
    rw [show laneSuffix (m + 3) = ".w" from rfl]
    decide

theorem getLast_r_append (a b : String) (h : b.toList.getLast? = some 'r') :
    (a ++ b).toList.getLast? = some 'r' := by
  rw [toList_append, List.getLast?_append_of_ne_nil _ (by intro he; rw [he] at h; simp at h)]
  exact h

theorem srcRef_infix_of_shape (s : String) (preHead post : String) (i : Nat)
    (hsh : s.toList = preHead.toList ++
      ("src_tensor".toList ++ ((toString i).toList ++ ('[' :: post.toList)))) :
    srcRefPat (toString i).toList <:+: s.toList := by
  rw [hsh]
  refine ⟨preHead.toList, post.toList, ?_⟩
  simp [srcRefPat, List.append_assoc]

theorem alignedValue_shape (i : Nat) :
    ("    value = src_tensor" ++ toString i ++ "[src_index];\n").toList
      = ("    value = src_tensor").toList ++
        ((toString i).toList ++ ('[' :: ("src_index];\n").toList)) := by
  rw [toList_append, toList_append,
    show ("[src_index];\n").toList = '[' :: ("src_index];\n").toList from by decide,
    List.append_assoc]

theorem alignedBlock_refBound {N i : Nat} (hiN : i < N) (c : Nat) :
    ∀ p ∈ alignedBlock i c, RefBound N p := by
  intro p hp
  simp only [alignedBlock, List.mem_cons, List.not_mem_nil, or_false] at hp
  rcases hp with rfl | rfl | rfl | rfl | rfl | rfl | rfl | rfl | rfl
  · refine refBound_of_no_bracket ?_ N
    exact bracket_not_mem_append
      (bracket_not_mem_append (by decide) (bracket_not_mem_toString _)) (by decide)
  · exact refBound_of_no_bracket (by decide) N
  · exact refBound_of_shape _ "    value = src_tensor" "src_index];\n" hiN
      (alignedValue_shape i) (by decide) (by decide) (by decide)
  · exact refBound_of_no_bracket (by decide) N
  · exact refBound_of_no_bracket (by decide) N
  · exact refBound_of_no_srcname (by decide) N
  · exact refBound_of_no_bracket (by decide) N
  · exact refBound_of_no_bracket (by decide) N
  · exact refBound_of_no_bracket (by decide) N

theorem alignedBody_refBound (channels : List Nat) :
    ∀ p ∈ alignedBody channels, RefBound channels.length p := by
  intro p hp
  obtain ⟨q, hq, hpq⟩ := List.mem_flatMap.mp hp
  exact alignedBlock_refBound (List.fst_lt_of_mem_enum hq) q.2 p hpq

theorem flushBlock_refBound (N : Nat) : ∀ p ∈ flushBlock, RefBound N p := by
  intro p hp
  simp only [flushBlock, List.mem_cons, List.not_mem_nil, or_false] at hp
  rcases hp with rfl | rfl | rfl | rfl | rfl | rfl | rfl
  · exact refBound_of_no_bracket (by decide) N
  · exact refBound_of_no_bracket (by decide) N
  · exact refBound_of_no_bracket (by decide) N
  · exact refBound_of_no_srcname (by decide) N
  · exact refBound_of_no_bracket (by decide) N
  · exact refBound_of_no_bracket (by decide) N
  · exact refBound_of_no_bracket (by decide) N

theorem trailingFlushBlock_refBound (N : Nat) : ∀ p ∈ trailingFlushBlock, RefBound N p := by
  intro p hp
  simp only [trailingFlushBlock, List.mem_cons, List.not_mem_nil, or_false] at hp
  rcases hp with rfl | rfl | rfl | rfl | rfl
  · exact refBound_of_no_bracket (by decide) N
  · exact refBound_of_no_bracket (by decide) N
  · exact refBound_of_no_bracket (by decide) N
  · exact refBound_of_no_srcname (by decide) N
  · exact refBound_of_no_bracket (by decide) N

theorem laneFold_refBound {N : Nat} (temp : String) (htemp : '[' ∉ temp.toList) :
    ∀ (chs : List Nat) (oc : Nat), ∀ p ∈ (laneFold temp chs oc).1, RefBound N p := by
  intro chs
  induction chs with
  | nil => intro oc p hp; simp [laneFold] at hp
  | cons ch rest ih =>
    intro oc p hp
    have hval : RefBound N ("  value" ++ laneSuffix oc ++ " = ") :=
      refBound_of_no_bracket
        (bracket_not_mem_append
          (bracket_not_mem_append (by decide) (bracket_not_mem_laneSuffix oc)) (by decide)) N
    have htmp : RefBound N (temp ++ laneSuffix ch ++ ";\n") :=
      refBound_of_no_bracket
        (bracket_not_mem_append
          (bracket_not_mem_append htemp (bracket_not_mem_laneSuffix ch)) (by decide)) N
    rw [laneFold] at hp
    by_cases h4 : oc + 1 = 4
    · rw [if_pos (by simp only [beq_iff_eq]; omega)] at hp
      simp only [List.mem_append, List.mem_cons, List.not_mem_nil, or_false] at hp
      rcases hp with ((rfl | rfl) | hp) | hp
      · exact hval
      · exact htmp
      · exact flushBlock_refBound N p hp
      · exact ih 0 p hp
    · rw [if_neg (by simp only [beq_iff_eq]; omega)] at hp
      simp only [List.mem_append, List.mem_cons, List.not_mem_nil, or_false] at hp
      rcases hp with (rfl | rfl) | hp
      · exact hval
      · exact htmp
      · exact ih (oc + 1) p hp

theorem readPiece_shape (ri i d : Nat) :
    ("  FLT4 " ++ ("t" ++ toString ri) ++ " = src_tensor" ++ toString i ++
      "[" ++ toString d ++ " * U.src_size.w + xy_offset];\n").toList
      = ("  FLT4 " ++ ("t" ++ toString ri) ++ " = src_tensor").toList ++
        ((toString i).toList ++
          ('[' :: (toString d ++ " * U.src_size.w + xy_offset];\n").toList)) := by
  simp only [toList_append, List.append_assoc,
    show ("[" : String).toList = ['['] from by decide, List.singleton_append,
    List.cons_append, List.nil_append]

theorem depthFold_refBound {N i : Nat} (hiN : i < N) (c : Nat) :
    ∀ (ds : List Nat) (ri oc : Nat), ∀ p ∈ (depthFold i c ds ri oc).1, RefBound N p := by
  intro ds
  induction ds with
  | nil => intro ri oc p hp; simp [depthFold] at hp
  | cons d rest ih =>
    intro ri oc p hp
    rw [depthFold] at hp
    simp only [List.mem_cons, List.mem_append] at hp
    rcases hp with (rfl | hp) | hp
    · refine refBound_of_shape _ ("  FLT4 " ++ ("t" ++ toString ri) ++ " = src_tensor")
        (toString d ++ " * U.src_size.w + xy_offset];\n") hiN (readPiece_shape ri i d) ?_ ?_ ?_
      · exact bracket_not_mem_append
          (bracket_not_mem_append (by decide)
            (bracket_not_mem_append (by decide) (bracket_not_mem_toString ri))) (by decide)
      · exact bracket_not_mem_append (bracket_not_mem_toString d) (by decide)
      · exact getLast_r_append _ _ (by decide)
    · exact laneFold_refBound ("t" ++ toString ri)
        (bracket_not_mem_append (by decide) (bracket_not_mem_toString ri)) _ oc p hp
    · exact ih (ri + 1) _ p hp

theorem inputsFold_refBound {N : Nat} :
    ∀ (items : List (Nat × Nat)), (∀ q ∈ items, q.1 < N) →
    ∀ (ri oc : Nat), ∀ p ∈ (inputsFold items ri oc).1, RefBound N p := by
  intro items
  induction items with
  | nil => intro hit ri oc p hp; simp [inputsFold] at hp
  | cons q rest ih =>
    intro hit ri oc p hp
    obtain ⟨i, c⟩ := q
    rw [inputsFold] at hp
    simp only [List.mem_append] at hp
    rcases hp with hp | hp
    · exact depthFold_refBound (hit (i, c) (List.mem_cons_self _ _)) c _ ri oc p hp
    · exact ih (fun q hq => hit q (List.mem_cons_of_mem _ hq)) _ _ p hp

set_option maxRecDepth 40000 in
theorem getConcatZCode_refBound (channels : List Nat) :
    ∀ p ∈ GetConcatZCode channels, RefBound channels.length p := by
  intro p hp
  rw [GetConcatZCode] at hp
  simp only [List.mem_append, List.mem_cons, List.not_mem_nil, or_false,
    List.mem_singleton] at hp
  rcases hp with (rfl | hp) | rfl
  · exact refBound_of_cleanBrackets zPreamble_cleanBrackets _
  · by_cases hx : IsAllChannelsX4 channels
    · rw [if_pos hx] at hp
      exact alignedBody_refBound channels p hp
    · rw [if_neg hx] at hp
      rw [unalignedBody] at hp
      simp only [List.mem_append] at hp
      rcases hp with hp | hp
      · refine inputsFold_refBound channels.enum ?_ 0 0 p hp
        intro q hq
        simpa using List.fst_lt_of_mem_enum hq
      · by_cases hz : (inputsFold channels.enum 0 0).2 != 0
        · rw [if_pos hz] at hp
          exact trailingFlushBlock_refBound _ p hp
        · rw [if_neg hz] at hp
          simp at hp
  · exact refBound_of_no_bracket (by decide) _

theorem concatXVal_shape (k hh ww off : Nat) :
    ("value = src_tensor" ++ toString k ++ "[(gid.y + gid.z * " ++ toString hh ++
      ") * " ++ toString ww ++ " + gid.x - " ++ toString off ++ "];\n").toList
      = ("value = src_tensor").toList ++ ((toString k).toList ++
          ('[' :: ("(gid.y + gid.z * " ++ toString hh ++ ") * " ++ toString ww ++
            " + gid.x - " ++ toString off ++ "];\n").toList)) := by
  simp only [toList_append, List.append_assoc,
    show ("[(gid.y + gid.z * " : String).toList
      = '[' :: ("(gid.y + gid.z * " : String).toList from by decide,
    List.cons_append, List.nil_append]

theorem concatYVal_shape (k hh ww off : Nat) :
    ("value = src_tensor" ++ toString k ++ "[(gid.y - " ++ toString off ++
      " + gid.z * " ++ toString hh ++ ") * " ++ toString ww ++ " + gid.x];\n").toList
      = ("value = src_tensor").toList ++ ((toString k).toList ++
          ('[' :: ("(gid.y - " ++ toString off ++ " + gid.z * " ++ toString hh ++
            ") * " ++ toString ww ++ " + gid.x];\n").toList)) := by
  simp only [toList_append, List.append_assoc,
    show ("[(gid.y - " : String).toList
      = '[' :: ("(gid.y - " : String).toList from by decide,
    List.cons_append, List.nil_append]

theorem concatXLoop_refBound {N : Nat} : ∀ (l : List BHWC) (k ow : Nat),
    k + l.length ≤ N → ∀ p ∈ (concatXLoop k ow l).1, RefBound N p := by
  intro l
  induction l with
  | nil => intro k ow hk p hp; simp [concatXLoop] at hp
  | cons d t ih =>
    intro k ow hk p hp
    rw [concatXLoop] at hp
    have hpost : '[' ∉ ("(gid.y + gid.z * " ++ toString d.h ++ ") * " ++ toString d.w ++
        " + gid.x - " ++ toString (ow + d.w - d.w) ++ "];\n").toList :=
 by
      repeat' apply bracket_not_mem_append
      all_goals first | exact bracket_not_mem_toString _ | decide
    have hval : RefBound N ("value = src_tensor" ++ toString k ++ "[(gid.y + gid.z * " ++
        toString d.h ++ ") * " ++ toString d.w ++ " + gid.x - " ++
        toString (ow + d.w - d.w) ++ "];\n") :=
      refBound_of_shape _ "value = src_tensor"
        ("(gid.y + gid.z * " ++ toString d.h ++ ") * " ++ toString d.w ++
          " + gid.x - " ++ toString (ow + d.w - d.w) ++ "];\n")
        (by simp only [List.length_cons] at hk; omega)
        (concatXVal_shape k d.h d.w (ow + d.w - d.w)) (by decide) hpost (by decide)
    have hifp : RefBound N ("if (gid.x < " ++ toString (ow + d.w) ++ ")") :=
      refBound_of_no_bracket
        (bracket_not_mem_append
          (bracket_not_mem_append (by decide) (bracket_not_mem_toString _)) (by decide)) N
    have hrec : ∀ p ∈ (concatXLoop (k + 1) (ow + d.w) t).1, RefBound N p :=
      ih (k + 1) (ow + d.w) (by simp only [List.length_cons] at hk; omega)
    by_cases hre : t.isEmpty
    · simp only [hre, if_true, List.nil_append, List.append_nil, List.mem_append,
        List.mem_cons, List.not_mem_nil, or_false] at hp
      rcases hp with rfl | hp
      · exact hval
      · exact hrec p hp
    · simp only [hre, Bool.false_eq_true, if_false, List.mem_append, List.mem_cons,
        List.not_mem_nil, or_false] at hp
      rcases hp with ((rfl | rfl) | rfl) | hp
      · exact hifp
      · exact hval
      · exact refBound_of_no_bracket (by decide) N
      · exact hrec p hp

theorem concatYLoop_refBound {N : Nat} : ∀ (l : List BHWC) (k oh : Nat),
    k + l.length ≤ N → ∀ p ∈ (concatYLoop k oh l).1, RefBound N p := by
  intro l
  induction l with
  | nil => intro k oh hk p hp; simp [concatYLoop] at hp
  | cons d t ih =>
    intro k oh hk p hp
    rw [concatYLoop] at hp
    have hpost : '[' ∉ ("(gid.y - " ++ toString (oh + d.h - d.h) ++ " + gid.z * " ++
        toString d.h ++ ") * " ++ toString d.w ++ " + gid.x];\n").toList :=
 by
      repeat' apply bracket_not_mem_append
      all_goals first | exact bracket_not_mem_toString _ | decide
    have hval : RefBound N ("value = src_tensor" ++ toString k ++ "[(gid.y - " ++
        toString (oh + d.h - d.h) ++ " + gid.z * " ++ toString d.h ++ ") * " ++
        toString d.w ++ " + gid.x];\n") :=
      refBound_of_shape _ "value = src_tensor"
        ("(gid.y - " ++ toString (oh + d.h - d.h) ++ " + gid.z * " ++ toString d.h ++
          ") * " ++ toString d.w ++ " + gid.x];\n")
        (by simp only [List.length_cons] at hk; omega)
        (concatYVal_shape k d.h d.w (oh + d.h - d.h)) (by decide) hpost (by decide)
    have hifp : RefBound N ("if (gid.y < " ++ toString (oh + d.h) ++ ")") :=
      refBound_of_no_bracket
        (bracket_not_mem_append
          (bracket_not_mem_append (by decide) (bracket_not_mem_toString _)) (by decide)) N
    have hrec : ∀ p ∈ (concatYLoop (k + 1) (oh + d.h) t).1, RefBound N p :=
      ih (k + 1) (oh + d.h) (by simp only [List.length_cons] at hk; omega)
    by_cases hre : t.isEmpty
    · simp only [hre, if_true, List.nil_append, List.append_nil, List.mem_append,
        List.mem_cons, List.not_mem_nil, or_false] at hp
      rcases hp with rfl | hp
      · exact hval
      · exact hrec p hp
    · simp only [hre, Bool.false_eq_true, if_false, List.mem_append, List.mem_cons,
        List.not_mem_nil, or_false] at hp
      rcases hp with ((rfl | rfl) | rfl) | hp
      · exact hifp
      · exact hval
      · exact refBound_of_no_bracket (by decide) N
      · exact hrec p hp

theorem alignedValue_shape2 (i : Nat) :
    ("    value = src_tensor" ++ toString i ++ "[src_index];\n").toList
      = ("    value = ").toList ++ ("src_tensor".toList ++
          ((toString i).toList ++ ('[' :: ("src_index];\n").toList))) := by
  rw [alignedValue_shape]
  rw [show ("    value = src_tensor").toList
      = ("    value = ").toList ++ "src_tensor".toList from by decide]
  simp [List.append_assoc]

theorem readPiece_shape2 (ri i d : Nat) :
    ("  FLT4 " ++ ("t" ++ toString ri) ++ " = src_tensor" ++ toString i ++
      "[" ++ toString d ++ " * U.src_size.w + xy_offset];\n").toList
      = ("  FLT4 " ++ ("t" ++ toString ri) ++ " = ").toList ++
        ("src_tensor".toList ++ ((toString i).toList ++
          ('[' :: (toString d ++ " * U.src_size.w + xy_offset];\n").toList))) := by
  rw [readPiece_shape]
  simp only [toList_append, List.append_assoc, List.nil_append,
    show (" = src_tensor").toList = (" = ").toList ++ "src_tensor".toList from by decide]

theorem concatXVal_shape2 (k hh ww off : Nat) :
    ("value = src_tensor" ++ toString k ++ "[(gid.y + gid.z * " ++ toString hh ++
      ") * " ++ toString ww ++ " + gid.x - " ++ toString off ++ "];\n").toList
      = ("value = ").toList ++ ("src_tensor".toList ++ ((toString k).toList ++
          ('[' :: ("(gid.y + gid.z * " ++ toString hh ++ ") * " ++ toString ww ++
            " + gid.x - " ++ toString off ++ "];\n").toList))) := by
  rw [concatXVal_shape]
  rw [show ("value = src_tensor").toList
      = ("value = ").toList ++ "src_tensor".toList from by decide]
  simp [List.append_assoc]

theorem concatYVal_shape2 (k hh ww off : Nat) :
    ("value = src_tensor" ++ toString k ++ "[(gid.y - " ++ toString off ++
      " + gid.z * " ++ toString hh ++ ") * " ++ toString ww ++ " + gid.x];\n").toList
      = ("value = ").toList ++ ("src_tensor".toList ++ ((toString k).toList ++
          ('[' :: ("(gid.y - " ++ toString off ++ " + gid.z * " ++ toString hh ++
            ") * " ++ toString ww ++ " + gid.x];\n").toList))) := by
  rw [concatYVal_shape]
  rw [show ("value = src_tensor").toList
      = ("value = ").toList ++ "src_tensor".toList from by decide]
  simp [List.append_assoc]

theorem alignedBody_mem_val (channels : List Nat) (i c : Nat)
    (h : (i, c) ∈ channels.enum) :
    ("    value = src_tensor" ++ toString i ++ "[src_index];\n") ∈ alignedBody channels :=
  List.mem_flatMap.mpr ⟨(i, c), h, by simp [alignedBlock]⟩

theorem inputsFold_mem_read : ∀ (items : List (Nat × Nat)) (ri oc i c : Nat),
    (i, c) ∈ items → 0 < c →
    ∃ p ∈ (inputsFold items ri oc).1, srcRefPat (toString i).toList <:+: p.toList := by
  intro items
  induction items with
  | nil => intro ri oc i c hmem hc; simp at hmem
  | cons q rest ih =>
    intro ri oc i c hmem hc
    obtain ⟨j, b⟩ := q
    rw [inputsFold]
    rcases List.mem_cons.mp hmem with heq | hmem'
    · simp only [Prod.mk.injEq] at heq
      obtain ⟨h1i, h2c⟩ := heq
      subst h1i
      subst h2c
      have h1 : 1 ≤ DivideRoundUp c 4 := by
        unfold DivideRoundUp
        omega
      obtain ⟨m, hm⟩ := Nat.exists_eq_add_of_le h1
      rw [show DivideRoundUp c 4 = m + 1 from by omega, List.range_succ_eq_map, depthFold]
      refine ⟨"  FLT4 " ++ ("t" ++ toString ri) ++ " = src_tensor" ++ toString i ++
        "[" ++ toString 0 ++ " * U.src_size.w + xy_offset];\n", ?_, ?_⟩
      · simp
      · exact srcRef_infix_of_shape _ ("  FLT4 " ++ ("t" ++ toString ri) ++ " = ")
          (toString 0 ++ " * U.src_size.w + xy_offset];\n") i (readPiece_shape2 ri i 0)
    · obtain ⟨p, hp, hinf⟩ := ih _ _ i c hmem' hc
      exact ⟨p, by simp only [List.mem_append]; right; exact hp, hinf⟩

theorem getConcatZCode_mem_ref (channels : List Nat) (hpos : ∀ c ∈ channels, 0 < c)
    (i : Nat) (hi : i < channels.length) :
    ∃ p ∈ GetConcatZCode channels, srcRefPat (toString i).toList <:+: p.toList := by
  have h1 : channels[i]? = some channels[i] := List.getElem?_eq_getElem hi
  have h2 : channels.enum[i]? = some (i, channels[i]) := by
    rw [List.getElem?_enum]
    simp [h1]
  have hmem : (i, channels[i]) ∈ channels.enum := List.getElem?_mem h2
  have hcpos : 0 < channels[i] := hpos _ (List.getElem_mem hi)
  rw [GetConcatZCode]
  by_cases hx : IsAllChannelsX4 channels
  · rw [if_pos hx]
    refine ⟨"    value = src_tensor" ++ toString i ++ "[src_index];\n", ?_, ?_⟩
    · simp only [List.mem_append]
      left
      right
      exact alignedBody_mem_val channels i channels[i] hmem
    · exact srcRef_infix_of_shape _ "    value = " "src_index];\n" i (alignedValue_shape2 i)
  · rw [if_neg hx]
    obtain ⟨p, hp, hinf⟩ := inputsFold_mem_read channels.enum 0 0 i channels[i] hmem hcpos
    refine ⟨p, ?_, hinf⟩
    simp only [List.mem_append]
    left
    right
    rw [unalignedBody]
    simp only [List.mem_append]
    left
    exact hp

theorem getConcatZCode_mem_dst (channels : List Nat) (hne : channels ≠ [])
    (hpos : ∀ c ∈ channels, 0 < c) :
    ∃ p ∈ GetConcatZCode channels, ("dst_tensor[".toList) <:+: p.toList := by
  obtain ⟨c0, rest, rfl⟩ := List.exists_cons_of_ne_nil hne
  refine ⟨flushLine, ?_, by decide⟩
  rw [GetConcatZCode]
  simp only [List.mem_append]
  left
  right
  by_cases hx : IsAllChannelsX4 (c0 :: rest)
  · rw [if_pos hx]
    refine List.mem_flatMap.mpr ⟨(0, c0), ?_, by simp [alignedBlock, flushLine]⟩
    have : (c0 :: rest).enum[0]? = some (0, c0) := by
      rw [List.getElem?_enum]
      simp
    exact List.getElem?_mem this
  · rw [if_neg hx]
    have hcount := unalignedBody_flush_count (c0 :: rest)
    have hsum : 1 ≤ (c0 :: rest).sum := by
      have := hpos c0 (List.mem_cons_self _ _)
      simp only [List.sum_cons]
      omega
    have hpos' : 0 < (unalignedBody (c0 :: rest)).count flushLine := by
      rw [hcount]
      unfold DivideRoundUp
      omega
    exact List.count_pos_iff.mp hpos'

theorem concatXLoop_mem_ref : ∀ (l : List BHWC) (k ow j : Nat), j < l.length →
    ∃ p ∈ (concatXLoop k ow l).1, srcRefPat (toString (k + j)).toList <:+: p.toList := by
  intro l
  induction l with
  | nil => intro k ow j hj; simp at hj
  | cons d t ih =>
    intro k ow j hj
    rw [concatXLoop]
    cases j with
    | zero =>
      refine ⟨"value = src_tensor" ++ toString k ++ "[(gid.y + gid.z * " ++
        toString d.h ++ ") * " ++ toString d.w ++ " + gid.x - " ++
        toString (ow + d.w - d.w) ++ "];\n", ?_, ?_⟩
      · exact List.mem_append_left _ (List.mem_append_left _
          (List.mem_append_right _ (List.mem_cons_self _ _)))
      · rw [show k + 0 = k from rfl]
        exact srcRef_infix_of_shape _ "value = "
          ("(gid.y + gid.z * " ++ toString d.h ++ ") * " ++ toString d.w ++
            " + gid.x - " ++ toString (ow + d.w - d.w) ++ "];\n") k
          (concatXVal_shape2 k d.h d.w (ow + d.w - d.w))
    | succ j' =>
      obtain ⟨p, hp, hinf⟩ := ih (k + 1) (ow + d.w) j' (by simpa using Nat.lt_of_succ_lt_succ (by simpa using hj))
      refine ⟨p, ?_, ?_⟩
      · simp only [List.mem_append]
        right
        exact hp
      · rw [show k + (j' + 1) = k + 1 + j' from by omega]
        exact hinf

theorem concatYLoop_mem_ref : ∀ (l : List BHWC) (k oh j : Nat), j < l.length →
    ∃ p ∈ (concatYLoop k oh l).1, srcRefPat (toString (k + j)).toList <:+: p.toList := by
  intro l
  induction l with
  | nil => intro k oh j hj; simp at hj
  | cons d t ih =>
    intro k oh j hj
    rw [concatYLoop]
    cases j with
    | zero =>
      refine ⟨"value = src_tensor" ++ toString k ++ "[(gid.y - " ++
        toString (oh + d.h - d.h) ++ " + gid.z * " ++ toString d.h ++ ") * " ++
        toString d.w ++ " + gid.x];\n", ?_, ?_⟩
      · exact List.mem_append_left _ (List.mem_append_left _
          (List.mem_append_right _ (List.mem_cons_self _ _)))
      · rw [show k + 0 = k from rfl]
        exact srcRef_infix_of_shape _ "value = "
          ("(gid.y - " ++ toString (oh + d.h - d.h) ++ " + gid.z * " ++ toString d.h ++
            ") * " ++ toString d.w ++ " + gid.x];\n") k
          (concatYVal_shape2 k d.h d.w (oh + d.h - d.h))
    | succ j' =>
      obtain ⟨p, hp, hinf⟩ := ih (k + 1) (oh + d.h) j' (by simpa using Nat.lt_of_succ_lt_succ (by simpa using hj))
      refine ⟨p, ?_, ?_⟩
      · simp only [List.mem_append]
        right
        exact hp
      · rw [show k + (j' + 1) = k + 1 + j' from by omega]
        exact hinf

set_option maxRecDepth 40000 in
theorem concatXCode_pieces_refBound (s0 : BHWC) (rest : List BHWC) :
    ∀ p ∈ [xPreamble] ++ (concatXLoop 0 0 (s0 :: rest)).1 ++
      ["const int linear_index = (gid.y + gid.z * " ++ toString s0.h ++ ") * " ++
        toString (concatXLoop 0 0 (s0 :: rest)).2 ++ " + gid.x;"] ++ [xTail],
      RefBound (s0 :: rest).length p := by
  intro p hp
  simp only [List.mem_append, List.mem_cons, List.not_mem_nil, or_false] at hp
  rcases hp with ((rfl | hp) | rfl) | rfl
  · exact refBound_of_cleanBrackets xPreamble_cleanBrackets _
  · exact concatXLoop_refBound (s0 :: rest) 0 0 (by simp) p hp
  · refine refBound_of_no_bracket ?_ _
    repeat' apply bracket_not_mem_append
    all_goals first | exact bracket_not_mem_toString _ | decide
  · exact refBound_of_no_srcname (by decide) _

set_option maxRecDepth 40000 in
theorem concatYCode_pieces_refBound (s0 : BHWC) (rest : List BHWC) :
    ∀ p ∈ [yPreamble] ++ (concatYLoop 0 0 (s0 :: rest)).1 ++
      ["const int linear_index = (gid.y + gid.z * " ++
        toString (concatYLoop 0 0 (s0 :: rest)).2 ++ ") * " ++ toString s0.w ++
        " + gid.x;"] ++ [yTail],
      RefBound (s0 :: rest).length p := by
  intro p hp
  simp only [List.mem_append, List.mem_cons, List.not_mem_nil, or_false] at hp
  rcases hp with ((rfl | hp) | rfl) | rfl
  · exact refBound_of_cleanBrackets yPreamble_cleanBrackets _
  · exact concatYLoop_refBound (s0 :: rest) 0 0 (by simp) p hp
  · refine refBound_of_no_bracket ?_ _
    repeat' apply bracket_not_mem_append
    all_goals first | exact bracket_not_mem_toString _ | decide
  · exact refBound_of_no_srcname (by decide) _

theorem rangeNames_map (n : Nat) (g : Nat → Option TensorDesc) :
    ((List.range n).map (fun i => ("src_tensor" ++ toString i, g i))).map Prod.fst
      = (List.range n).map (fun i => "src_tensor" ++ toString i) := by
  rw [List.map_map]
  rfl

theorem enumNames_map (l : List TensorDesc) :
    ((l.enum.map (fun p => ("src_tensor" ++ toString p.1, some p.2))).map Prod.fst)
      = (List.range l.length).map (fun i => "src_tensor" ++ toString i) := by
  rw [List.map_map]
  rw [show (Prod.fst ∘ fun p : Nat × TensorDesc => ("src_tensor" ++ toString p.1, some p.2))
      = (fun i => "src_tensor" ++ toString i) ∘ Prod.fst from rfl]
  rw [← List.map_map, List.enum_map_fst]

/-! ### Claim C8 -/

set_option maxRecDepth 40000 in
/-- Claim C8 counterexample: with two inputs of channel counts 0 and 3
(matching binding count), the depth generator registers `src_tensor0`
but no emitted piece contains a subscripted reference `src_tensor0[` —
the registered names do not all appear in the generated source. -/
theorem concatZ_zero_channel_unreferenced :
    ("src_tensor0" ∈ (ConcatZ ⟨[7, 8], [9]⟩ ⟨Axis.channels⟩
        [⟨1, 1, 1, 0⟩, ⟨1, 1, 1, 3⟩]).src_tensors.map Prod.fst) ∧
    ¬ (∃ chunk ∈ (ConcatZ ⟨[7, 8], [9]⟩ ⟨Axis.channels⟩
        [⟨1, 1, 1, 0⟩, ⟨1, 1, 1, 3⟩]).shader_source,
        srcRefPat ("0".toList) <:+: chunk.toList) := by
  constructor
  · decide
  · have hsrc : (ConcatZ ⟨[7, 8], [9]⟩ ⟨Axis.channels⟩
        [⟨1, 1, 1, 0⟩, ⟨1, 1, 1, 3⟩]).shader_source =
      [zPreamble] ++ unalignedBody [0, 3] ++ ["\x7d\n"] := rfl
    have hbody : unalignedBody [0, 3] =
        ["  FLT4 " ++ ("t" ++ toString 0) ++ " = src_tensor" ++ toString 1 ++ "[" ++
           toString 0 ++ " * U.src_size.w + xy_offset];\n",
         "  value" ++ laneSuffix 0 ++ " = ", ("t" ++ toString 0) ++ laneSuffix 0 ++ ";\n",
         "  value" ++ laneSuffix 1 ++ " = ", ("t" ++ toString 0) ++ laneSuffix 1 ++ ";\n",
         "  value" ++ laneSuffix 2 ++ " = ", ("t" ++ toString 0) ++ laneSuffix 2 ++ ";\n"]
        ++ trailingFlushBlock := rfl
    rintro ⟨chunk, hc, hinf⟩
    have hb : ('[' : Char) ∈ srcRefPat ("0".toList) := by decide
    rw [hsrc, hbody, trailingFlushBlock] at hc
    simp only [List.mem_append, List.mem_cons, List.not_mem_nil, or_false] at hc
    rcases hc with (rfl | (rfl | rfl | rfl | rfl | rfl | rfl | rfl) |
      rfl | rfl | rfl | rfl | rfl) | rfl
    · exact cleanBrackets_sound zPreamble.toList zPreamble_cleanBrackets '0' (by decide)
        (List.IsInfix.trans (by decide) hinf)
    · exact absurd hinf (by decide)
    · exact absurd (hinf.mem hb) (by decide)
    · exact absurd (hinf.mem hb) (by decide)
    · exact absurd (hinf.mem hb) (by decide)
    · exact absurd (hinf.mem hb) (by decide)
    · exact absurd (hinf.mem hb) (by decide)
    · exact absurd (hinf.mem hb) (by decide)
    · exact absurd (hinf.mem hb) (by decide)
    · exact absurd (hinf.mem hb) (by decide)
    · exact absurd (hinf.mem hb) (by decide)
    · exact absurd hinf (by decide)
    · exact absurd (hinf.mem hb) (by decide)
    · exact absurd (hinf.mem hb) (by decide)

set_option maxRecDepth 40000 in
/-- Claim C8 (amended): for each generator, provided the binding count
matches the (non-empty) shape list and — for the depth generator —
every input has a positive channel count, the descriptor registers
exactly the source bindings `src_tensor0..src_tensor{N-1}` in order
plus the single destination binding `dst_tensor`, and the source-tensor
names referenced in the emitted source (as subscripted occurrences
`src_tensor<digits>[`) are exactly the registered ones, with
`dst_tensor[` also referenced.  (Without the positivity condition a
zero-channel input's binding is registered but never referenced on the
unaligned depth path.) -/
theorem concat_bindings_match_references
    (definition : OperationDef) (s0 : BHWC) (rest : List BHWC)
    (hlen : definition.src_tensors.length = (s0 :: rest).length) :
    (∀ desc, ConcatX definition ⟨Axis.width⟩ (s0 :: rest) = some desc →
       desc.src_tensors.map Prod.fst =
         (List.range (s0 :: rest).length).map (fun i => "src_tensor" ++ toString i) ∧
       desc.dst_tensors.map Prod.fst = ["dst_tensor"] ∧
       (∀ Y : List Char, (∀ c ∈ Y, c.isDigit = true) →
          ((∃ chunk ∈ desc.shader_source, srcRefPat Y <:+: chunk.toList) ↔
           ∃ i, i < (s0 :: rest).length ∧ Y = (toString i).toList)) ∧
       (∃ chunk ∈ desc.shader_source, ("dst_tensor[".toList) <:+: chunk.toList)) ∧
    (∀ desc, ConcatY definition ⟨Axis.height⟩ (s0 :: rest) = some desc →
       desc.src_tensors.map Prod.fst =
         (List.range (s0 :: rest).length).map (fun i => "src_tensor" ++ toString i) ∧
       desc.dst_tensors.map Prod.fst = ["dst_tensor"] ∧
       (∀ Y : List Char, (∀ c ∈ Y, c.isDigit = true) →
          ((∃ chunk ∈ desc.shader_source, srcRefPat Y <:+: chunk.toList) ↔
           ∃ i, i < (s0 :: rest).length ∧ Y = (toString i).toList)) ∧
       (∃ chunk ∈ desc.shader_source, ("dst_tensor[".toList) <:+: chunk.toList)) ∧
    ((∀ sh ∈ s0 :: rest, 0 < sh.c) →
       (ConcatZ definition ⟨Axis.channels⟩ (s0 :: rest)).src_tensors.map Prod.fst =
         (List.range (s0 :: rest).length).map (fun i => "src_tensor" ++ toString i) ∧
       (ConcatZ definition ⟨Axis.channels⟩ (s0 :: rest)).dst_tensors.map Prod.fst =
         ["dst_tensor"] ∧
       (∀ Y : List Char, (∀ c ∈ Y, c.isDigit = true) →
          ((∃ chunk ∈ (ConcatZ definition ⟨Axis.channels⟩ (s0 :: rest)).shader_source,
              srcRefPat Y <:+: chunk.toList) ↔
           ∃ i, i < (s0 :: rest).length ∧ Y = (toString i).toList)) ∧
       (∃ chunk ∈ (ConcatZ definition ⟨Axis.channels⟩ (s0 :: rest)).shader_source,
          ("dst_tensor[".toList) <:+: chunk.toList)) := by
  refine ⟨?_, ?_, ?_⟩
  · -- width generator
    intro desc hdesc
    rw [ConcatX, ConcatXCode] at hdesc
    simp only [Option.map_some'] at hdesc
    obtain rfl := (Option.some.injEq _ _).mp hdesc
    refine ⟨rangeNames_map _ _, rfl, ?_, ?_⟩
    · intro Y hY
      constructor
      · rintro ⟨chunk, hc, hin⟩
        exact concatXCode_pieces_refBound s0 rest chunk hc Y hY hin
      · rintro ⟨i, hi, rfl⟩
        obtain ⟨p, hp, hinf⟩ := concatXLoop_mem_ref (s0 :: rest) 0 0 i hi
        refine ⟨p, ?_, by simpa using hinf⟩
        simp only [List.mem_append]
        left
        left
        right
        exact hp
      
    · refine ⟨xTail, ?_, by decide⟩
      simp
  · -- height generator
    intro desc hdesc
    rw [ConcatY, ConcatYCode] at hdesc
    simp only [Option.map_some'] at hdesc
    obtain rfl := (Option.some.injEq _ _).mp hdesc
    refine ⟨rangeNames_map _ _, rfl, ?_, ?_⟩
    · intro Y hY
      constructor
      · rintro ⟨chunk, hc, hin⟩
        exact concatYCode_pieces_refBound s0 rest chunk hc Y hY hin
      · rintro ⟨i, hi, rfl⟩
        obtain ⟨p, hp, hinf⟩ := concatYLoop_mem_ref (s0 :: rest) 0 0 i hi
        refine ⟨p, ?_, by simpa using hinf⟩
        simp only [List.mem_append]
        left
        left
        right
        exact hp
    · refine ⟨yTail, ?_, by decide⟩
      simp
  · -- depth generator
    intro hpos
    have hposc : ∀ c ∈ ((s0 :: rest).map (fun s => s.c)), 0 < c := by
      intro c hc
      obtain ⟨sh, hsh, rfl⟩ := List.mem_map.mp hc
      exact hpos sh hsh
    have hNlen : ((s0 :: rest).map (fun s => s.c)).length = (s0 :: rest).length :=
      List.length_map _ _
    have hss : (ConcatZ definition ⟨Axis.channels⟩ (s0 :: rest)).shader_source
        = GetConcatZCode ((s0 :: rest).map (fun s => s.c)) := rfl
    refine ⟨?_, rfl, ?_, ?_⟩
    · rw [show (ConcatZ definition ⟨Axis.channels⟩ (s0 :: rest)).src_tensors
          = definition.src_tensors.enum.map
              (fun p => ("src_tensor" ++ toString p.1, some p.2)) from rfl]
      rw [enumNames_map, hlen]
    · intro Y hY
      rw [hss]
      constructor
      · rintro ⟨chunk, hc, hin⟩
        have := getConcatZCode_refBound ((s0 :: rest).map (fun s => s.c)) chunk hc Y hY hin
        rwa [hNlen] at this
      · rintro ⟨i, hi, rfl⟩
        exact getConcatZCode_mem_ref ((s0 :: rest).map (fun s => s.c)) hposc i
          (by rwa [hNlen])
    · rw [hss]
      exact getConcatZCode_mem_dst ((s0 :: rest).map (fun s => s.c)) (by simp) hposc

set_option maxRecDepth 40000 in
/-- Closed instance of `concat_bindings_match_references`. -/
theorem concat_bindings_match_references_witness :
    (⟨[7, 8], [9]⟩ : OperationDef).src_tensors.length =
      ([⟨1, 2, 3, 4⟩, ⟨1, 2, 3, 5⟩] : List BHWC).length ∧
    ((∀ desc, ConcatX ⟨[7, 8], [9]⟩ ⟨Axis.width⟩ [⟨1, 2, 3, 4⟩, ⟨1, 2, 3, 5⟩] = some desc →
       desc.src_tensors.map Prod.fst =
         (List.range ([⟨1, 2, 3, 4⟩, ⟨1, 2, 3, 5⟩] : List BHWC).length).map
           (fun i => "src_tensor" ++ toString i) ∧
       desc.dst_tensors.map Prod.fst = ["dst_tensor"] ∧
       (∀ Y : List Char, (∀ c ∈ Y, c.isDigit = true) →
          ((∃ chunk ∈ desc.shader_source, srcRefPat Y <:+: chunk.toList) ↔
           ∃ i, i < ([⟨1, 2, 3, 4⟩, ⟨1, 2, 3, 5⟩] : List BHWC).length ∧
             Y = (toString i).toList)) ∧
       (∃ chunk ∈ desc.shader_source, ("dst_tensor[".toList) <:+: chunk.toList)) ∧
    (∀ desc, ConcatY ⟨[7, 8], [9]⟩ ⟨Axis.height⟩ [⟨1, 2, 3, 4⟩, ⟨1, 2, 3, 5⟩] = some desc →
       desc.src_tensors.map Prod.fst =
         (List.range ([⟨1, 2, 3, 4⟩, ⟨1, 2, 3, 5⟩] : List BHWC).length).map
           (fun i => "src_tensor" ++ toString i) ∧
       desc.dst_tensors.map Prod.fst = ["dst_tensor"] ∧
       (∀ Y : List Char, (∀ c ∈ Y, c.isDigit = true) →
          ((∃ chunk ∈ desc.shader_source, srcRefPat Y <:+: chunk.toList) ↔
           ∃ i, i < ([⟨1, 2, 3, 4⟩, ⟨1, 2, 3, 5⟩] : List BHWC).length ∧
             Y = (toString i).toList)) ∧
       (∃ chunk ∈ desc.shader_source, ("dst_tensor[".toList) <:+: chunk.toList)) ∧
    ((∀ sh ∈ ([⟨1, 2, 3, 4⟩, ⟨1, 2, 3, 5⟩] : List BHWC), 0 < sh.c) →
       (ConcatZ ⟨[7, 8], [9]⟩ ⟨Axis.channels⟩
           [⟨1, 2, 3, 4⟩, ⟨1, 2, 3, 5⟩]).src_tensors.map Prod.fst =
         (List.range ([⟨1, 2, 3, 4⟩, ⟨1, 2, 3, 5⟩] : List BHWC).length).map
           (fun i => "src_tensor" ++ toString i) ∧
       (ConcatZ ⟨[7, 8], [9]⟩ ⟨Axis.channels⟩
           [⟨1, 2, 3, 4⟩, ⟨1, 2, 3, 5⟩]).dst_tensors.map Prod.fst = ["dst_tensor"] ∧
       (∀ Y : List Char, (∀ c ∈ Y, c.isDigit = true) →
          ((∃ chunk ∈ (ConcatZ ⟨[7, 8], [9]⟩ ⟨Axis.channels⟩
              [⟨1, 2, 3, 4⟩, ⟨1, 2, 3, 5⟩]).shader_source,
              srcRefPat Y <:+: chunk.toList) ↔
           ∃ i, i < ([⟨1, 2, 3, 4⟩, ⟨1, 2, 3, 5⟩] : List BHWC).length ∧
             Y = (toString i).toList)) ∧
       (∃ chunk ∈ (ConcatZ ⟨[7, 8], [9]⟩ ⟨Axis.channels⟩
           [⟨1, 2, 3, 4⟩, ⟨1, 2, 3, 5⟩]).shader_source,
          ("dst_tensor[".toList) <:+: chunk.toList))) :=
  ⟨by decide, concat_bindings_match_references ⟨[7, 8], [9]⟩ ⟨1, 2, 3, 4⟩ [⟨1, 2, 3, 5⟩]
    (by decide)⟩
